import Mathlib

/-!
Verification of the raw-road-accident ingestion module (src/data/db/db_tasks.py).

The module is embedded shallowly:

* the four logical CSV types and the per-file processing status are finite
  enumerations (`FileType`, `ProcessingStatus`);
* a ledger entry / in-memory ORM object is a `FileRec`;
* the SQLAlchemy session is an `St`: the session-visible ("live") ledger and
  entity-row lists together with their last committed ("db") snapshots;
  `commit` copies the live lists over the committed ones, matching the fact
  that a SQLAlchemy commit flushes every pending insert and every dirty
  attribute of the one shared session;
* ORM object identity is modelled by `Desc`: a descriptor is either a
  `detached` record (a transient object never added to the session) or
  `stored i`, a handle onto row `i` of the live ledger, so that mutating a
  stored descriptor mutates the ledger row itself;
* the external collaborators (`get_dataframe` and the writes performed row by
  row inside `_add_data_to_table`) are oracles: `Oracles.getDf` yields the
  parsed rows of a path or the message of the exception the parser raises,
  and `Oracles.write` says whether the row-by-row insertion of a table write
  succeeds or raises after `k` rows were already added to the session;
* `add_data_to_db` folds the faithful per-type step over the fixed list
  `order_files`, recording which types were attempted and, for every
  successful table commit, the persisted status the written file had at that
  very moment.
-/

namespace DbTasks

/-- The four logical raw-file types (RawRoadAccidentCsvFileNames). -/
inductive FileType
  | caracteristiques
  | lieux
  | vehicules
  | usagers
  deriving DecidableEq

/-- Ledger processing status (ProcessingStatus). -/
inductive ProcessingStatus
  | pending
  | processed
  | failed
  deriving DecidableEq

/-- A ledger entry / in-memory raw-file object (RawRoadAccidentsCsvFile). -/
structure FileRec where
  ftype : FileType
  dir_name : String
  file_name : String
  md5 : String
  path : String
  processing_status : ProcessingStatus
  reason : Option String
  deriving DecidableEq

/-- Default record used only to totalise list indexing. -/
def dummyRec : FileRec :=
  ⟨FileType.caracteristiques, "", "", "", "", ProcessingStatus.pending, none⟩

/-- Persisted database contents: the ledger table and the four entity tables
(an entity row is abstracted to a tag and a row identifier). -/
structure Db where
  ledger : List FileRec
  rows : List (FileType × Nat)
  deriving DecidableEq

/-- Session state: live (session-visible, autoflushed) lists plus the
committed snapshots. -/
structure St where
  liveLedger : List FileRec
  dbLedger : List FileRec
  liveRows : List (FileType × Nat)
  dbRows : List (FileType × Nat)
  deriving DecidableEq

/-- Opening a session on a database. -/
def sessionStart (db : Db) : St :=
  ⟨db.ledger, db.ledger, db.rows, db.rows⟩

/-- Model of `session.commit()`: every pending insert and dirty attribute
becomes persistent. -/
def commit (st : St) : St :=
  ⟨st.liveLedger, st.liveLedger, st.liveRows, st.liveRows⟩

/-- The committed contents of the store. -/
def dbOf (st : St) : Db :=
  ⟨st.dbLedger, st.dbRows⟩

/-- An ORM handle: either a transient object or a handle on live ledger
row `i`. -/
inductive Desc
  | detached (r : FileRec)
  | stored (i : Nat)
  deriving DecidableEq

/-- The ledger index of a stored descriptor. -/
def storedIdx : Desc → Option Nat
  | Desc.detached _ => none
  | Desc.stored i => some i

/-- Current field values of the object a descriptor denotes. -/
def descRec (st : St) : Desc → FileRec
  | Desc.detached r => r
  | Desc.stored i => st.liveLedger.getD i dummyRec

/-- Current processing status of the object a descriptor denotes. -/
def descStatus (st : St) (d : Desc) : ProcessingStatus :=
  (descRec st d).processing_status

/-- Attribute assignment on the object a descriptor denotes (state part). -/
def mutateSt (st : St) (d : Desc) (f : FileRec → FileRec) : St :=
  match d with
  | Desc.detached _ => st
  | Desc.stored i =>
      { st with liveLedger := st.liveLedger.set i (f (st.liveLedger.getD i dummyRec)) }

/-- Attribute assignment on the object a descriptor denotes (handle part). -/
def mutateDesc (d : Desc) (f : FileRec → FileRec) : Desc :=
  match d with
  | Desc.detached r => Desc.detached (f r)
  | Desc.stored i => Desc.stored i

/-- Model of `session.add(obj)`: a no-op on a persistent object, a pending
insert on a transient one (state part). -/
def sessionAddSt (st : St) (d : Desc) : St :=
  match d with
  | Desc.stored _ => st
  | Desc.detached r => { st with liveLedger := st.liveLedger ++ [r] }

/-- Model of `session.add(obj)`: the transient object becomes the freshly
inserted row (handle part). -/
def sessionAddDesc (st : St) (d : Desc) : Desc :=
  match d with
  | Desc.stored i => Desc.stored i
  | Desc.detached _ => Desc.stored st.liveLedger.length

/- ------------------------------------------------------------------ -/
/- Connection URL (module-level env handling) and init_db.            -/
/- ------------------------------------------------------------------ -/

/-- The environment variables the module reads at import time. -/
structure Env where
  host : String
  database : String
  user : String
  password : String
  port : String
  deriving DecidableEq

/-- The connection URL exactly as the module builds it: note that the
format call passes the literal `5432` for the port placeholder, not the
`port` read from the environment. -/
def db_url (e : Env) : String :=
  "postgresql+psycopg2://" ++ e.user ++ ":" ++ e.password ++ "@" ++ e.host ++
    ":" ++ toString (5432 : Nat) ++ "/" ++ e.database

/-- create_db_engine simply wraps the URL. -/
def create_db_engine (url : String) : String := url

/-- Outcome of one `SQLModel.metadata.create_all(engine)` attempt. -/
inductive AttemptOutcome
  | ok
  | operationalError
  | otherError (msg : String)
  deriving DecidableEq

/-- Observable result of init_db: success after `retries` retries having
slept `slept` time-units, an exception propagated after `retries` retries
and `slept` time-units of sleep, or still inside the retry loop. -/
inductive InitResult
  | success (retries : Nat) (slept : Nat)
  | raised (msg : String) (retries : Nat) (slept : Nat)
  | stillRetrying
  deriving DecidableEq

/-- The `while True` retry loop of init_db, driven by the outcome of each
successive attempt; `fuel` bounds how many iterations we observe. -/
def init_db_loop (attempt : Nat → AttemptOutcome) (sleep_for : Nat) :
    Nat → Nat → Nat → InitResult
  | _, _, 0 => InitResult.stillRetrying
  | i, slept, Nat.succ fuel =>
      match attempt i with
      | AttemptOutcome.ok => InitResult.success i slept
      | AttemptOutcome.operationalError =>
          init_db_loop attempt sleep_for (i + 1) (slept + sleep_for) fuel
      | AttemptOutcome.otherError m => InitResult.raised m i slept

/-- init_db with its default sleep of 30 time-units. -/
def init_db (attempt : Nat → AttemptOutcome) (fuel : Nat)
    (sleep_for : Nat := 30) : InitResult :=
  init_db_loop attempt sleep_for 0 0 fuel

/- ------------------------------------------------------------------ -/
/- FileRegistry: update_raw_accidents_csv_files_table.                -/
/- ------------------------------------------------------------------ -/

/-- One iteration of the reconcile loop for a freshly discovered file
object `f`: query the (autoflushed, hence live) ledger for rows sharing the
md5; if any is processed, only mark the in-memory object processed and do
not add it; otherwise `session.add` it, making it a pending ledger row. -/
def reconcileStep (st : St) (f : FileRec) : St × Desc :=
  let results := st.liveLedger.filter (fun r => r.md5 == f.md5)
  if results.any (fun r => r.processing_status == ProcessingStatus.processed) then
    (st, Desc.detached { f with processing_status := ProcessingStatus.processed })
  else
    ({ st with liveLedger := st.liveLedger ++ [f] }, Desc.stored st.liveLedger.length)

/-- The reconcile loop over the discovered files, in dictionary order. -/
def reconLoop (st : St) : List (FileType × FileRec) → St × List (FileType × Desc)
  | [] => (st, [])
  | (t, f) :: rest =>
      let pr := reconcileStep st f
      let rec2 := reconLoop pr.1 rest
      (rec2.1, (t, pr.2) :: rec2.2)

/-- update_raw_accidents_csv_files_table: the loop followed by
`session.commit()`. -/
def update_raw_accidents_csv_files_table (st : St)
    (files : List (FileType × FileRec)) : St × List (FileType × Desc) :=
  let r := reconLoop st files
  (commit r.1, r.2)

/- ------------------------------------------------------------------ -/
/- BulkTableWriter: _add_data_to_table.                               -/
/- ------------------------------------------------------------------ -/

/-- Outcome of the row-by-row write of one dataframe: all conversions and
adds succeed, or the conversion of row `k` raises with message `msg` after
rows `0..k-1` were already added to the session. -/
inductive WriteOutcome
  | ok
  | failAt (k : Nat) (msg : String)
  deriving DecidableEq

/-- The writer _add_data_to_table: convert and add every row, then commit; a raise at
row `k` leaves rows `0..k-1` pending in the session and performs no commit,
surfacing the message to the caller. -/
def add_data_to_table (st : St) (tbl : FileType) (rows : List Nat) :
    WriteOutcome → St × Option String
  | WriteOutcome.ok =>
      (commit { st with liveRows := st.liveRows ++ rows.map (fun r => (tbl, r)) }, none)
  | WriteOutcome.failAt k m =>
      ({ st with liveRows := st.liveRows ++ (rows.take k).map (fun r => (tbl, r)) },
        some m)

/- ------------------------------------------------------------------ -/
/- LoadOrchestrator: add_data_to_db.                                  -/
/- ------------------------------------------------------------------ -/

/-- The external collaborators: the dataframe parser (which may raise) and
the fate of each table write. -/
structure Oracles where
  getDf : String → Except String (List Nat)
  write : FileType → List Nat → WriteOutcome

/-- The fixed dependency order of add_data_to_db. -/
def order_files : List FileType :=
  [FileType.caracteristiques, FileType.lieux, FileType.vehicules, FileType.usagers]

/-- The if/elif chain selecting the table model, including the final
unreachable `else: raise RuntimeError` branch, modelled as `none`. -/
def tableModelFor (t : FileType) : Option FileType :=
  if t = FileType.caracteristiques then some FileType.caracteristiques
  else if t = FileType.lieux then some FileType.lieux
  else if t = FileType.usagers then some FileType.usagers
  else if t = FileType.vehicules then some FileType.vehicules
  else none

/-- An exception propagating out of add_data_to_db: either the parser raised
on a path, or the unreachable unknown-file RuntimeError. -/
inductive ErrKind
  | parseError (msg : String)
  | unknownFile (t : FileType)
  deriving DecidableEq

/-- Running state of add_data_to_db: the session, the files mapping (whose
objects the loop mutates), the propagating exception if one was raised, the
types whose load was attempted (`get_dataframe` reached), and for every
successful table commit the persisted status the written file had right
after that commit. -/
structure RunOut where
  st : St
  files : FileType → Option Desc
  err : Option ErrKind
  attempts : List FileType
  commits : List (FileType × ProcessingStatus)

/-- Persisted (committed) status of the object a descriptor denotes; a
transient object is not persisted at all, so its in-memory status stands. -/
def persistedStatus (st : St) : Desc → ProcessingStatus
  | Desc.detached r => r.processing_status
  | Desc.stored i => (st.dbLedger.getD i dummyRec).processing_status

/-- Replace the mapping entry of type `t`. -/
def replaceDesc (files : FileType → Option Desc) (t : FileType) (d : Desc) :
    FileType → Option Desc :=
  fun t2 => if t2 = t then some d else files t2

/-- Line 117 of the module: `road_acc_model.processing_status = processed`. -/
def setProcessed (r : FileRec) : FileRec :=
  { r with processing_status := ProcessingStatus.processed }

/-- Lines 120-121: `processing_status = failed; reason = f"Exception raised: {e}"`
(in the reason string the braces stand for the interpolated message). -/
def setFailed (m : String) (r : FileRec) : FileRec :=
  { r with processing_status := ProcessingStatus.failed,
           reason := some ("Exception raised: " ++ m) }

/-- Result of one loop iteration whose `_add_data_to_table` call committed:
the table commit happens first, then the status assignment, then the finally
block's `session.add`; the commits log records the persisted status the
object had right after the table commit. -/
def stepWriteOk (out : RunOut) (t : FileType) (d : Desc) (tbl : FileType)
    (rows : List Nat) : RunOut :=
  let st2 := (add_data_to_table out.st tbl rows WriteOutcome.ok).1
  let snap := persistedStatus st2 d
  let st3 := mutateSt st2 d setProcessed
  let d2 := mutateDesc d setProcessed
  { st := sessionAddSt st3 d2, files := replaceDesc out.files t (sessionAddDesc st3 d2),
    err := out.err, attempts := out.attempts ++ [t],
    commits := out.commits ++ [(t, snap)] }

/-- Result of one loop iteration whose `_add_data_to_table` call raised at
row `k` with message `m`: the exception is caught, the status set to failed
with the reason, and the finally block `session.add`s the object. -/
def stepWriteFail (out : RunOut) (t : FileType) (d : Desc) (tbl : FileType)
    (rows : List Nat) (k : Nat) (m : String) : RunOut :=
  let st2 := (add_data_to_table out.st tbl rows (WriteOutcome.failAt k m)).1
  let st3 := mutateSt st2 d (setFailed m)
  let d2 := mutateDesc d (setFailed m)
  { st := sessionAddSt st3 d2, files := replaceDesc out.files t (sessionAddDesc st3 d2),
    err := out.err, attempts := out.attempts ++ [t],
    commits := out.commits }

/-- The write phase of one loop iteration (the try/except/finally). -/
def stepWrite (oc : Oracles) (out : RunOut) (t : FileType) (d : Desc)
    (tbl : FileType) (rows : List Nat) : RunOut :=
  match oc.write tbl rows with
  | WriteOutcome.ok => stepWriteOk out t d tbl rows
  | WriteOutcome.failAt k m => stepWriteFail out t d tbl rows k m

/-- The load phase of one loop iteration: `get_dataframe` (outside the try,
so a raise propagates), then the table-model selection (also outside the
try), then the write phase. -/
def stepLoad (oc : Oracles) (out : RunOut) (t : FileType) (d : Desc) : RunOut :=
  match oc.getDf (descRec out.st d).path with
  | Except.error m =>
      { out with attempts := out.attempts ++ [t], err := some (ErrKind.parseError m) }
  | Except.ok rows =>
      match tableModelFor t with
      | none =>
          { out with attempts := out.attempts ++ [t], err := some (ErrKind.unknownFile t) }
      | some tbl => stepWrite oc out t d tbl rows

/-- One iteration of the add_data_to_db loop: nothing happens once an
exception is propagating; a type absent from the mapping or already marked
processed is skipped. -/
def stepType (oc : Oracles) (out : RunOut) (t : FileType) : RunOut :=
  if out.err.isSome then out
  else
    match out.files t with
    | none => out
    | some d =>
        if descStatus out.st d = ProcessingStatus.processed then out
        else stepLoad oc out t d

/-- add_data_to_db: fold the iteration over the fixed dependency order. -/
def add_data_to_db (oc : Oracles) (st : St) (files : FileType → Option Desc) :
    RunOut :=
  order_files.foldl (stepType oc) (RunOut.mk st files none [] [])

/- ------------------------------------------------------------------ -/
/- main: reconcile, run, final commit (skipped when a raise escapes). -/
/- ------------------------------------------------------------------ -/

/-- Dictionary lookup on the association list of descriptors. -/
def lookupD : List (FileType × Desc) → FileType → Option Desc
  | [], _ => none
  | (k, v) :: rest, t => if t = k then some v else lookupD rest t

/-- The dictionary `files` viewed the way `files.get` reads it. -/
def filesFun (descs : List (FileType × Desc)) : FileType → Option Desc :=
  fun t => lookupD descs t

/-- One execution of main's session body: reconcile, then add_data_to_db,
then — only when no exception escaped — the final `session.commit()`; a
propagating exception closes the session, discarding uncommitted state. -/
def pipelineOnce (oc : Oracles) (db : Db) (files : List (FileType × FileRec)) :
    Db × RunOut :=
  let st0 := sessionStart db
  let r := update_raw_accidents_csv_files_table st0 files
  let out := add_data_to_db oc r.1 (filesFun r.2)
  if out.err.isSome then (dbOf out.st, out) else (dbOf (commit out.st), out)

/-- A sequence of non-overlapping executions, each with its own oracles and
its own freshly discovered file objects. -/
def pipelineSeq (db : Db) : List (Oracles × List (FileType × FileRec)) → Db
  | [] => db
  | (oc, fs) :: rest => pipelineSeq (pipelineOnce oc db fs).1 rest

/-- Well-formedness of a files mapping with respect to a session: a stored
handle points inside the live ledger, and distinct mapping entries never
share a stored ledger row (each value of the discovery dictionary is its
own ORM object). -/
def WF (st : St) (files : FileType → Option Desc) : Prop :=
  (∀ t d i, files t = some d → storedIdx d = some i → i < st.liveLedger.length) ∧
  (∀ t u d e i, t ≠ u → files t = some d → files u = some e →
      storedIdx d = some i → storedIdx e = some i → False)

/-- Concrete attempt sequence: the store rejects the first two attempts with
the transient error and accepts the third. -/
def c4Attempt : Nat → AttemptOutcome :=
  fun i => if i < 2 then AttemptOutcome.operationalError else AttemptOutcome.ok

/-- A freshly discovered (pending, transient) file object. -/
def recOf (t : FileType) (h p : String) : FileRec :=
  ⟨t, "dir", "file", h, p, ProcessingStatus.pending, none⟩

/-- The empty store. -/
def dbEmpty : Db := ⟨[], []⟩

/-- A session opened on the empty store. -/
def stEmpty : St := sessionStart dbEmpty

/-- Collaborators that always succeed. -/
def ocOk : Oracles :=
  ⟨fun _ => Except.ok [0, 1], fun _ _ => WriteOutcome.ok⟩

/-- Collaborators whose parser raises on the vehicles path only. -/
def ocParseFailVeh : Oracles :=
  ⟨fun p => if p = "pv" then Except.error "boom" else Except.ok [0],
   fun _ _ => WriteOutcome.ok⟩

/-- Collaborators whose writes always raise after one row. -/
def ocFailAll : Oracles :=
  ⟨fun _ => Except.ok [5, 6], fun _ _ => WriteOutcome.failAt 1 "boom"⟩

/-- Four pending transient descriptors, one per type, distinct paths. -/
def c2Files : FileType → Option Desc :=
  fun t =>
    match t with
    | FileType.caracteristiques => some (Desc.detached (recOf FileType.caracteristiques "hc" "pc"))
    | FileType.lieux => some (Desc.detached (recOf FileType.lieux "hl" "pl"))
    | FileType.vehicules => some (Desc.detached (recOf FileType.vehicules "hv" "pv"))
    | FileType.usagers => some (Desc.detached (recOf FileType.usagers "hu" "pu"))

/-- Per-index relation between the post-reconcile ledger `l0` and a ledger
evolved by the run loop: same length, md5 preserved at every index, and
rows below `base` (the pre-existing ledger region) untouched. -/
def LedgerRel (base : Nat) (l0 l : List FileRec) : Prop :=
  l.length = l0.length ∧
  (∀ j, (l.getD j dummyRec).md5 = (l0.getD j dummyRec).md5) ∧
  (∀ j, j < base → l.getD j dummyRec = l0.getD j dummyRec)

/-- No two distinct ledger rows with the same content hash are both marked
processed. -/
def AtMostOneProcessed (l : List FileRec) : Prop :=
  ∀ i j, i < l.length → j < l.length → i ≠ j →
    (l.getD i dummyRec).processing_status = ProcessingStatus.processed →
    (l.getD j dummyRec).processing_status = ProcessingStatus.processed →
    (l.getD i dummyRec).md5 ≠ (l.getD j dummyRec).md5

/-- Two discovered files of different logical types sharing one content
hash. -/
def c7Files : List (FileType × FileRec) :=
  [(FileType.caracteristiques, recOf FileType.caracteristiques "X" "p1"),
   (FileType.lieux, recOf FileType.lieux "X" "p2")]

/-- A file object already marked processed. -/
def recProcessed (t : FileType) (h p : String) : FileRec :=
  ⟨t, "dir", "file", h, p, ProcessingStatus.processed, none⟩

/-- Four transient descriptors with the vehicles one already processed. -/
def c6Files : FileType → Option Desc :=
  fun t =>
    match t with
    | FileType.caracteristiques => some (Desc.detached (recOf FileType.caracteristiques "hc" "pc"))
    | FileType.lieux => some (Desc.detached (recOf FileType.lieux "hl" "pl"))
    | FileType.vehicules => some (Desc.detached (recProcessed FileType.vehicules "hv" "pv"))
    | FileType.usagers => some (Desc.detached (recOf FileType.usagers "hu" "pu"))

/-- One discovered vehicles file whose write will fail after one row. -/
def c5Files : List (FileType × FileRec) :=
  [(FileType.vehicules, recOf FileType.vehicules "hv" "pv")]

/-- Collaborators for the C5 counterexample: two parsed rows, the write
raises when converting the second. -/
def ocC5 : Oracles :=
  ⟨fun _ => Except.ok [10, 11], fun _ _ => WriteOutcome.failAt 1 "dup"⟩

/- ------------------------------------------------------------------ -/
/- Basic lemmas about the loop step.                                  -/
/- ------------------------------------------------------------------ -/

theorem tableModelFor_eq (t : FileType) : tableModelFor t = some t := by
  cases t <;> rfl

theorem stepType_of_err (oc : Oracles) (out : RunOut) (t : FileType)
    (h : out.err.isSome) : stepType oc out t = out := by
  unfold stepType
  simp [h]

theorem stepType_of_absent (oc : Oracles) (out : RunOut) (t : FileType)
    (h : out.err = none) (hf : out.files t = none) : stepType oc out t = out := by
  unfold stepType
  simp [h, hf]

theorem stepType_of_processed (oc : Oracles) (out : RunOut) (t : FileType)
    (d : Desc) (h : out.err = none) (hf : out.files t = some d)
    (hs : descStatus out.st d = ProcessingStatus.processed) :
    stepType oc out t = out := by
  unfold stepType
  simp [h, hf, hs]

theorem stepType_of_load (oc : Oracles) (out : RunOut) (t : FileType)
    (d : Desc) (h : out.err = none) (hf : out.files t = some d)
    (hs : descStatus out.st d ≠ ProcessingStatus.processed) :
    stepType oc out t = stepLoad oc out t d := by
  unfold stepType
  simp [h, hf, hs]

theorem stepLoad_of_parse_err (oc : Oracles) (out : RunOut) (t : FileType)
    (d : Desc) (m : String)
    (hdf : oc.getDf (descRec out.st d).path = Except.error m) :
    stepLoad oc out t d =
      { out with attempts := out.attempts ++ [t],
                 err := some (ErrKind.parseError m) } := by
  unfold stepLoad
  rw [hdf]

theorem stepLoad_of_parse_ok (oc : Oracles) (out : RunOut) (t : FileType)
    (d : Desc) (rows : List Nat)
    (hdf : oc.getDf (descRec out.st d).path = Except.ok rows) :
    stepLoad oc out t d = stepWrite oc out t d t rows := by
  unfold stepLoad
  rw [hdf, tableModelFor_eq]

theorem stepWrite_of_ok (oc : Oracles) (out : RunOut) (t : FileType)
    (d : Desc) (tbl : FileType) (rows : List Nat)
    (hw : oc.write tbl rows = WriteOutcome.ok) :
    stepWrite oc out t d tbl rows = stepWriteOk out t d tbl rows := by
  unfold stepWrite
  rw [hw]

theorem stepWrite_of_fail (oc : Oracles) (out : RunOut) (t : FileType)
    (d : Desc) (tbl : FileType) (rows : List Nat) (k : Nat) (m : String)
    (hw : oc.write tbl rows = WriteOutcome.failAt k m) :
    stepWrite oc out t d tbl rows = stepWriteFail out t d tbl rows k m := by
  unfold stepWrite
  rw [hw]

theorem stepWriteOk_detached (out : RunOut) (t : FileType) (r : FileRec)
    (tbl : FileType) (rows : List Nat) :
    stepWriteOk out t (Desc.detached r) tbl rows =
      { st := ⟨out.st.liveLedger ++ [setProcessed r], out.st.liveLedger,
               out.st.liveRows ++ rows.map (fun x => (tbl, x)),
               out.st.liveRows ++ rows.map (fun x => (tbl, x))⟩,
        files := replaceDesc out.files t (Desc.stored out.st.liveLedger.length),
        err := out.err, attempts := out.attempts ++ [t],
        commits := out.commits ++ [(t, r.processing_status)] } := rfl

theorem stepWriteOk_stored (out : RunOut) (t : FileType) (i : Nat)
    (tbl : FileType) (rows : List Nat) :
    stepWriteOk out t (Desc.stored i) tbl rows =
      { st := ⟨out.st.liveLedger.set i
                 (setProcessed (out.st.liveLedger.getD i dummyRec)),
               out.st.liveLedger,
               out.st.liveRows ++ rows.map (fun x => (tbl, x)),
               out.st.liveRows ++ rows.map (fun x => (tbl, x))⟩,
        files := replaceDesc out.files t (Desc.stored i),
        err := out.err, attempts := out.attempts ++ [t],
        commits := out.commits ++
          [(t, (out.st.liveLedger.getD i dummyRec).processing_status)] } := rfl

theorem stepWriteFail_detached (out : RunOut) (t : FileType) (r : FileRec)
    (tbl : FileType) (rows : List Nat) (k : Nat) (m : String) :
    stepWriteFail out t (Desc.detached r) tbl rows k m =
      { st := ⟨out.st.liveLedger ++ [setFailed m r], out.st.dbLedger,
               out.st.liveRows ++ (rows.take k).map (fun x => (tbl, x)),
               out.st.dbRows⟩,
        files := replaceDesc out.files t (Desc.stored out.st.liveLedger.length),
        err := out.err, attempts := out.attempts ++ [t],
        commits := out.commits } := rfl

theorem stepWriteFail_stored (out : RunOut) (t : FileType) (i : Nat)
    (tbl : FileType) (rows : List Nat) (k : Nat) (m : String) :
    stepWriteFail out t (Desc.stored i) tbl rows k m =
      { st := ⟨out.st.liveLedger.set i
                 (setFailed m (out.st.liveLedger.getD i dummyRec)),
               out.st.dbLedger,
               out.st.liveRows ++ (rows.take k).map (fun x => (tbl, x)),
               out.st.dbRows⟩,
        files := replaceDesc out.files t (Desc.stored i),
        err := out.err, attempts := out.attempts ++ [t],
        commits := out.commits } := rfl

theorem stepLoad_attempts (oc : Oracles) (out : RunOut) (t : FileType)
    (d : Desc) : (stepLoad oc out t d).attempts = out.attempts ++ [t] := by
  cases hdf : oc.getDf (descRec out.st d).path with
  | error m => rw [stepLoad_of_parse_err oc out t d m hdf]
  | ok rows =>
      rw [stepLoad_of_parse_ok oc out t d rows hdf]
      cases hw : oc.write t rows with
      | ok => rw [stepWrite_of_ok oc out t d t rows hw]; rfl
      | failAt k m => rw [stepWrite_of_fail oc out t d t rows k m hw]; rfl

theorem stepType_attempts (oc : Oracles) (out : RunOut) (t : FileType) :
    ∃ e, (stepType oc out t).attempts = out.attempts ++ e ∧ e.Sublist [t] := by
  unfold stepType
  by_cases h : out.err.isSome
  · exact ⟨[], by simp [h], List.nil_sublist _⟩
  · cases hf : out.files t with
    | none => exact ⟨[], by simp [h, hf], List.nil_sublist _⟩
    | some d =>
        by_cases hs : descStatus out.st d = ProcessingStatus.processed
        · exact ⟨[], by simp [h, hf, hs], List.nil_sublist _⟩
        · refine ⟨[t], ?_, List.Sublist.refl _⟩
          simp only [h, hf, hs]
          simp [stepLoad_attempts]

theorem foldl_attempts (oc : Oracles) (l : List FileType) :
    ∀ out : RunOut, ∃ e, (l.foldl (stepType oc) out).attempts = out.attempts ++ e ∧
      e.Sublist l := by
  induction l with
  | nil => intro out; exact ⟨[], by simp, List.nil_sublist _⟩
  | cons t rest ih =>
      intro out
      obtain ⟨e0, he0, hs0⟩ := stepType_attempts oc out t
      obtain ⟨e1, he1, hs1⟩ := ih (stepType oc out t)
      refine ⟨e0 ++ e1, ?_, ?_⟩
      · simp only [List.foldl_cons, he1, he0, List.append_assoc]
      · exact List.Sublist.append hs0 hs1

/- ------------------------------------------------------------------ -/
/- List indexing helpers.                                             -/
/- ------------------------------------------------------------------ -/

theorem getD_set_ne (l : List FileRec) (i j : Nat) (r : FileRec) (h : i ≠ j) :
    (l.set i r).getD j dummyRec = l.getD j dummyRec := by
  induction l generalizing i j with
  | nil => simp
  | cons a as ih =>
      cases i with
      | zero =>
          cases j with
          | zero => exact absurd rfl h
          | succ j2 => simp
      | succ i2 =>
          cases j with
          | zero => simp
          | succ j2 => simpa using ih i2 j2 (by omega)

theorem getD_set_self (l : List FileRec) (i : Nat) (r : FileRec)
    (h : i < l.length) : (l.set i r).getD i dummyRec = r := by
  induction l generalizing i with
  | nil => simp at h
  | cons a as ih =>
      cases i with
      | zero => simp
      | succ i2 => simpa using ih i2 (by simpa using h)

theorem getD_snoc_len (l : List FileRec) (r : FileRec) :
    (l ++ [r]).getD l.length dummyRec = r := by
  rw [List.getD_append_right _ _ _ _ (Nat.le_refl _)]
  simp

/- ------------------------------------------------------------------ -/
/- The branch eliminator for one loop iteration.                      -/
/- ------------------------------------------------------------------ -/

theorem stepType_elim (oc : Oracles) (out : RunOut) (t : FileType)
    (P : RunOut → Prop)
    (hskip : P out)
    (hparse : ∀ d m, out.err = none → out.files t = some d →
        descStatus out.st d ≠ ProcessingStatus.processed →
        oc.getDf (descRec out.st d).path = Except.error m →
        P { out with attempts := out.attempts ++ [t],
                     err := some (ErrKind.parseError m) })
    (hok : ∀ d rows, out.err = none → out.files t = some d →
        descStatus out.st d ≠ ProcessingStatus.processed →
        oc.getDf (descRec out.st d).path = Except.ok rows →
        oc.write t rows = WriteOutcome.ok →
        P (stepWriteOk out t d t rows))
    (hfail : ∀ d rows k m, out.err = none → out.files t = some d →
        descStatus out.st d ≠ ProcessingStatus.processed →
        oc.getDf (descRec out.st d).path = Except.ok rows →
        oc.write t rows = WriteOutcome.failAt k m →
        P (stepWriteFail out t d t rows k m)) :
    P (stepType oc out t) := by
  by_cases h : out.err.isSome
  · rw [stepType_of_err oc out t h]; exact hskip
  · have hnone : out.err = none := Option.not_isSome_iff_eq_none.mp h
    cases hf : out.files t with
    | none => rw [stepType_of_absent oc out t hnone hf]; exact hskip
    | some d =>
        by_cases hs : descStatus out.st d = ProcessingStatus.processed
        · rw [stepType_of_processed oc out t d hnone hf hs]; exact hskip
        · rw [stepType_of_load oc out t d hnone hf hs]
          cases hdf : oc.getDf (descRec out.st d).path with
          | error m =>
              rw [stepLoad_of_parse_err oc out t d m hdf]
              exact hparse d m hnone hf hs hdf
          | ok rows =>
              rw [stepLoad_of_parse_ok oc out t d rows hdf]
              cases hw : oc.write t rows with
              | ok =>
                  rw [stepWrite_of_ok oc out t d t rows hw]
                  exact hok d rows hnone hf hs hdf hw
              | failAt k m =>
                  rw [stepWrite_of_fail oc out t d t rows k m hw]
                  exact hfail d rows k m hnone hf hs hdf hw

/- ------------------------------------------------------------------ -/
/- Frame lemmas for one loop iteration.                               -/
/- ------------------------------------------------------------------ -/

theorem stepType_files_frame (oc : Oracles) (out : RunOut) (t : FileType)
    (u : FileType) (hu : u ≠ t) :
    (stepType oc out t).files u = out.files u := by
  refine stepType_elim oc out t (fun o => o.files u = out.files u) rfl ?_ ?_ ?_
  · intro d m _ _ _ _; rfl
  · intro d rows _ _ _ _ _
    cases d with
    | detached r => rw [stepWriteOk_detached]; simp [replaceDesc, hu]
    | stored i => rw [stepWriteOk_stored]; simp [replaceDesc, hu]
  · intro d rows k m _ _ _ _ _
    cases d with
    | detached r => rw [stepWriteFail_detached]; simp [replaceDesc, hu]
    | stored i => rw [stepWriteFail_stored]; simp [replaceDesc, hu]

theorem stepType_live_cases (oc : Oracles) (out : RunOut) (t : FileType) :
    (stepType oc out t).st.liveLedger = out.st.liveLedger ∨
    (∃ r, (stepType oc out t).st.liveLedger = out.st.liveLedger ++ [r]) ∨
    (∃ i r, out.files t = some (Desc.stored i) ∧
       (stepType oc out t).st.liveLedger = out.st.liveLedger.set i r) := by
  refine stepType_elim oc out t (fun o =>
      o.st.liveLedger = out.st.liveLedger ∨
      (∃ r, o.st.liveLedger = out.st.liveLedger ++ [r]) ∨
      (∃ i r, out.files t = some (Desc.stored i) ∧
         o.st.liveLedger = out.st.liveLedger.set i r))
    (Or.inl rfl) ?_ ?_ ?_
  · intro d m _ _ _ _; exact Or.inl rfl
  · intro d rows _ hf _ _ _
    cases d with
    | detached r =>
        rw [stepWriteOk_detached]
        exact Or.inr (Or.inl ⟨setProcessed r, rfl⟩)
    | stored i =>
        rw [stepWriteOk_stored]
        exact Or.inr (Or.inr ⟨i, _, hf, rfl⟩)
  · intro d rows k m _ hf _ _ _
    cases d with
    | detached r =>
        rw [stepWriteFail_detached]
        exact Or.inr (Or.inl ⟨setFailed m r, rfl⟩)
    | stored i =>
        rw [stepWriteFail_stored]
        exact Or.inr (Or.inr ⟨i, _, hf, rfl⟩)

theorem stepType_live_len (oc : Oracles) (out : RunOut) (t : FileType) :
    out.st.liveLedger.length ≤ (stepType oc out t).st.liveLedger.length := by
  rcases stepType_live_cases oc out t with h | ⟨r, h⟩ | ⟨i, r, _, h⟩ <;>
    simp [h]

theorem stepType_descRec_frame (oc : Oracles) (out : RunOut) (t : FileType)
    (e : Desc)
    (hb : ∀ i, storedIdx e = some i → i < out.st.liveLedger.length)
    (hne : ∀ i, storedIdx e = some i →
        ∀ d, out.files t = some d → storedIdx d ≠ some i) :
    descRec (stepType oc out t).st e = descRec out.st e := by
  cases e with
  | detached r => rfl
  | stored i =>
      have hi := hb i rfl
      rcases stepType_live_cases oc out t with h | ⟨r, h⟩ | ⟨j, r, hj, h⟩
      · simp [descRec, h]
      · simp only [descRec, h]
        exact List.getD_append _ _ _ _ hi
      · have hji : j ≠ i := by
          intro he
          exact hne i rfl _ hj (by rw [he]; rfl)
        simp only [descRec, h]
        exact getD_set_ne _ _ _ _ hji

theorem stepType_WF (oc : Oracles) (out : RunOut) (t : FileType)
    (hwf : WF out.st out.files) : WF (stepType oc out t).st (stepType oc out t).files := by
  obtain ⟨hb, hd⟩ := hwf
  refine stepType_elim oc out t (fun o => WF o.st o.files) ⟨hb, hd⟩ ?_ ?_ ?_
  · intro d m _ _ _ _; exact ⟨hb, hd⟩
  · intro d rows _ hf _ _ _
    cases d with
    | detached r =>
        rw [stepWriteOk_detached]
        constructor
        · intro u e i hu hi
          simp only [replaceDesc] at hu
          by_cases hut : u = t
          · rw [if_pos hut] at hu
            cases hu
            cases hi
            simp
          · rw [if_neg hut] at hu
            have := hb u e i hu hi
            simp only [List.length_append, List.length_cons, List.length_nil]
            omega
        · intro u v e f i huv hu hv hi hj
          simp only [replaceDesc] at hu hv
          by_cases hut : u = t <;> by_cases hvt : v = t
          · exact huv (hut.trans hvt.symm)
          · rw [if_pos hut] at hu
            rw [if_neg hvt] at hv
            cases hu
            cases hi
            have := hb v f _ hv hj
            omega
          · rw [if_neg hut] at hu
            rw [if_pos hvt] at hv
            cases hv
            cases hj
            have := hb u e _ hu hi
            omega
          · rw [if_neg hut] at hu
            rw [if_neg hvt] at hv
            exact hd u v e f i huv hu hv hi hj
    | stored i0 =>
        rw [stepWriteOk_stored]
        have hrep : ∀ u, replaceDesc out.files t (Desc.stored i0) u = out.files u := by
          intro u
          by_cases hut : u = t
          · simp [replaceDesc, hut, hf]
          · simp [replaceDesc, hut]
        constructor
        · intro u e i hu hi
          dsimp only at hu
          rw [hrep u] at hu
          have := hb u e i hu hi
          simpa using this
        · intro u v e f i huv hu hv hi hj
          dsimp only at hu hv
          rw [hrep u] at hu
          rw [hrep v] at hv
          exact hd u v e f i huv hu hv hi hj
  · intro d rows k m _ hf _ _ _
    cases d with
    | detached r =>
        rw [stepWriteFail_detached]
        constructor
        · intro u e i hu hi
          simp only [replaceDesc] at hu
          by_cases hut : u = t
          · rw [if_pos hut] at hu
            cases hu
            cases hi
            simp
          · rw [if_neg hut] at hu
            have := hb u e i hu hi
            simp only [List.length_append, List.length_cons, List.length_nil]
            omega
        · intro u v e f i huv hu hv hi hj
          simp only [replaceDesc] at hu hv
          by_cases hut : u = t <;> by_cases hvt : v = t
          · exact huv (hut.trans hvt.symm)
          · rw [if_pos hut] at hu
            rw [if_neg hvt] at hv
            cases hu
            cases hi
            have := hb v f _ hv hj
            omega
          · rw [if_neg hut] at hu
            rw [if_pos hvt] at hv
            cases hv
            cases hj
            have := hb u e _ hu hi
            omega
          · rw [if_neg hut] at hu
            rw [if_neg hvt] at hv
            exact hd u v e f i huv hu hv hi hj
    | stored i0 =>
        rw [stepWriteFail_stored]
        have hrep : ∀ u, replaceDesc out.files t (Desc.stored i0) u = out.files u := by
          intro u
          by_cases hut : u = t
          · simp [replaceDesc, hut, hf]
          · simp [replaceDesc, hut]
        constructor
        · intro u e i hu hi
          dsimp only at hu
          rw [hrep u] at hu
          have := hb u e i hu hi
          simpa using this
        · intro u v e f i huv hu hv hi hj
          dsimp only at hu hv
          rw [hrep u] at hu
          rw [hrep v] at hv
          exact hd u v e f i huv hu hv hi hj

theorem filter_tag_map (u v : FileType) (h : ¬ v = u) (rows : List Nat) :
    (rows.map (fun x => (v, x))).filter (fun p => p.1 == u) = [] := by
  induction rows with
  | nil => rfl
  | cons a as ih => simp [List.filter_cons, h, ih]

theorem stepType_err_none (oc : Oracles) (out : RunOut) (t : FileType)
    (hdf : ∀ p, ∃ rs, oc.getDf p = Except.ok rs) (h : out.err = none) :
    (stepType oc out t).err = none := by
  refine stepType_elim oc out t (fun o => o.err = none) h ?_ ?_ ?_
  · intro d m _ _ _ hpe
    obtain ⟨rs, hrs⟩ := hdf (descRec out.st d).path
    rw [hrs] at hpe
    cases hpe
  · intro d rows _ _ _ _ _; exact h
  · intro d rows k m _ _ _ _ _; exact h

theorem stepType_desc_frame_of_WF (oc : Oracles) (out : RunOut)
    (t u : FileType) (hwf : WF out.st out.files) (hu : u ≠ t) (e : Desc)
    (he : out.files u = some e) :
    descRec (stepType oc out t).st e = descRec out.st e := by
  refine stepType_descRec_frame oc out t e ?_ ?_
  · intro i hi; exact hwf.1 u e i he hi
  · intro i hi d hd hcon
    exact hwf.2 t u d e i (Ne.symm hu) hd he hcon hi

theorem foldl_WF (oc : Oracles) (L : List FileType) :
    ∀ out : RunOut, WF out.st out.files →
      WF (L.foldl (stepType oc) out).st (L.foldl (stepType oc) out).files := by
  induction L with
  | nil => intro out h; exact h
  | cons v rest ih => intro out h; exact ih _ (stepType_WF oc out v h)

theorem foldl_err_none (oc : Oracles)
    (hdf : ∀ p, ∃ rs, oc.getDf p = Except.ok rs) (L : List FileType) :
    ∀ out : RunOut, out.err = none → (L.foldl (stepType oc) out).err = none := by
  induction L with
  | nil => intro out h; exact h
  | cons v rest ih => intro out h; exact ih _ (stepType_err_none oc out v hdf h)

theorem foldl_other_frame (oc : Oracles) (L : List FileType) :
    ∀ (out : RunOut) (u : FileType), u ∉ L → WF out.st out.files →
      ((L.foldl (stepType oc) out).files u = out.files u ∧
       ∀ e, out.files u = some e →
         descRec (L.foldl (stepType oc) out).st e = descRec out.st e) := by
  induction L with
  | nil => intro out u _ _; exact ⟨rfl, fun e _ => rfl⟩
  | cons v rest ih =>
      intro out u hu hwf
      have hne : u ≠ v := fun h => hu (h ▸ List.mem_cons_self v rest)
      have hfr := stepType_files_frame oc out v u hne
      have hwf2 := stepType_WF oc out v hwf
      obtain ⟨h1, h2⟩ := ih (stepType oc out v) u
        (fun h => hu (List.mem_cons_of_mem v h)) hwf2
      refine ⟨by rw [List.foldl_cons, h1, hfr], ?_⟩
      intro e he
      have hd := stepType_desc_frame_of_WF oc out v u hwf hne e he
      rw [List.foldl_cons, h2 e (by rw [hfr]; exact he), hd]

theorem stepType_attempt_source (oc : Oracles) (out : RunOut) (t : FileType)
    (x : FileType) :
    x ∈ (stepType oc out t).attempts →
      x ∈ out.attempts ∨ (x = t ∧ ∃ d, out.files t = some d ∧
        descStatus out.st d ≠ ProcessingStatus.processed) := by
  refine stepType_elim oc out t (fun o => x ∈ o.attempts →
      x ∈ out.attempts ∨ (x = t ∧ ∃ d, out.files t = some d ∧
        descStatus out.st d ≠ ProcessingStatus.processed)) (fun h => Or.inl h)
    ?_ ?_ ?_
  · intro d m _ hd hs _ hx
    rcases List.mem_append.mp hx with h | h
    · exact Or.inl h
    · exact Or.inr ⟨List.mem_singleton.mp h, d, hd, hs⟩
  · intro d rows _ hd hs _ _ hx
    rcases List.mem_append.mp hx with h | h
    · exact Or.inl h
    · exact Or.inr ⟨List.mem_singleton.mp h, d, hd, hs⟩
  · intro d rows k m _ hd hs _ _ hx
    rcases List.mem_append.mp hx with h | h
    · exact Or.inl h
    · exact Or.inr ⟨List.mem_singleton.mp h, d, hd, hs⟩

theorem foldl_attempts_source (oc : Oracles) (L : List FileType) :
    ∀ out : RunOut, L.Nodup → WF out.st out.files →
      ∀ x, x ∈ (L.foldl (stepType oc) out).attempts →
        x ∈ out.attempts ∨ (x ∈ L ∧ ∃ d, out.files x = some d ∧
          descStatus out.st d ≠ ProcessingStatus.processed) := by
  induction L with
  | nil => intro out _ _ x hx; exact Or.inl hx
  | cons v rest ih =>
      intro out hnd hwf x hx
      have hwf2 := stepType_WF oc out v hwf
      rw [List.foldl_cons] at hx
      rcases ih (stepType oc out v) (List.nodup_cons.mp hnd).2 hwf2 x hx with
        hin | ⟨hmem, d, hd, hds⟩
      · rcases stepType_attempt_source oc out v x hin with h | ⟨hxv, d, hd, hds⟩
        · exact Or.inl h
        · subst hxv
          exact Or.inr ⟨List.mem_cons_self _ _, d, hd, hds⟩
      · have hxv : x ≠ v := by
          intro h
          exact (List.nodup_cons.mp hnd).1 (h ▸ hmem)
        have hfr := stepType_files_frame oc out v x hxv
        rw [hfr] at hd
        have hdr := stepType_desc_frame_of_WF oc out v x hwf hxv d hd
        have hds2 : descStatus out.st d ≠ ProcessingStatus.processed := by
          unfold descStatus at hds ⊢
          rw [hdr] at hds
          exact hds
        exact Or.inr ⟨List.mem_cons_of_mem v hmem, d, hd, hds2⟩

theorem stepType_liveRows_frame (oc : Oracles) (out : RunOut)
    (t u : FileType) (hu : u ≠ t) :
    ((stepType oc out t).st.liveRows.filter (fun p => p.1 == u)) =
      out.st.liveRows.filter (fun p => p.1 == u) := by
  refine stepType_elim oc out t (fun o =>
      (o.st.liveRows.filter (fun p => p.1 == u)) =
        out.st.liveRows.filter (fun p => p.1 == u)) rfl ?_ ?_ ?_
  · intro d m _ _ _ _; rfl
  · intro d rows _ _ _ _ _
    cases d with
    | detached r =>
        rw [stepWriteOk_detached]
        dsimp only
        rw [List.filter_append, filter_tag_map u t (Ne.symm hu), List.append_nil]
    | stored i =>
        rw [stepWriteOk_stored]
        dsimp only
        rw [List.filter_append, filter_tag_map u t (Ne.symm hu), List.append_nil]
  · intro d rows k m _ _ _ _ _
    cases d with
    | detached r =>
        rw [stepWriteFail_detached]
        dsimp only
        rw [List.filter_append, filter_tag_map u t (Ne.symm hu), List.append_nil]
    | stored i =>
        rw [stepWriteFail_stored]
        dsimp only
        rw [List.filter_append, filter_tag_map u t (Ne.symm hu), List.append_nil]

theorem foldl_skip_frame (oc : Oracles) (L : List FileType) :
    ∀ (out : RunOut) (t : FileType) (d : Desc), WF out.st out.files →
      out.files t = some d →
      descStatus out.st d = ProcessingStatus.processed →
      ((((L.foldl (stepType oc) out).st.liveRows.filter (fun p => p.1 == t)) =
          out.st.liveRows.filter (fun p => p.1 == t)) ∧
       ∀ x, x ∈ (L.foldl (stepType oc) out).attempts →
         x ∈ out.attempts ∨ x ≠ t) := by
  induction L with
  | nil => intro out t d _ _ _; exact ⟨rfl, fun x hx => Or.inl hx⟩
  | cons v rest ih =>
      intro out t d hwf hd hds
      by_cases hvt : v = t
      · subst hvt
        have hstep : stepType oc out v = out := by
          by_cases he : out.err.isSome
          · exact stepType_of_err oc out v he
          · exact stepType_of_processed oc out v d
              (Option.not_isSome_iff_eq_none.mp he) hd hds
        rw [List.foldl_cons, hstep]
        exact ih out v d hwf hd hds
      · have hnt : t ≠ v := fun h => hvt h.symm
        have hwf2 := stepType_WF oc out v hwf
        have hfr := stepType_files_frame oc out v t hnt
        have hdr := stepType_desc_frame_of_WF oc out v t hwf hnt d hd
        have hrows := stepType_liveRows_frame oc out v t hnt
        have hd2 : (stepType oc out v).files t = some d := by rw [hfr]; exact hd
        have hds2 : descStatus (stepType oc out v).st d = ProcessingStatus.processed := by
          unfold descStatus at hds ⊢
          rw [hdr]
          exact hds
        obtain ⟨h1, h2⟩ := ih (stepType oc out v) t d hwf2 hd2 hds2
        rw [List.foldl_cons]
        refine ⟨by rw [h1, hrows], ?_⟩
        intro x hx
        rcases h2 x hx with hin | hne
        · rcases stepType_attempt_source oc out v x hin with h | ⟨hxv, _⟩
          · exact Or.inl h
          · exact Or.inr (fun hcon => hvt (hxv ▸ hcon))
        · exact Or.inr hne

theorem stepWriteOk_attempts (out : RunOut) (t : FileType) (d : Desc)
    (tbl : FileType) (rows : List Nat) :
    (stepWriteOk out t d tbl rows).attempts = out.attempts ++ [t] := rfl

theorem stepWriteFail_attempts (out : RunOut) (t : FileType) (d : Desc)
    (tbl : FileType) (rows : List Nat) (k : Nat) (m : String) :
    (stepWriteFail out t d tbl rows k m).attempts = out.attempts ++ [t] := rfl

theorem stepWriteOk_self (out : RunOut) (t : FileType) (d : Desc)
    (rows : List Nat)
    (hb : ∀ i, storedIdx d = some i → i < out.st.liveLedger.length) :
    ∃ e, (stepWriteOk out t d t rows).files t = some e ∧
      (∃ j, e = Desc.stored j) ∧
      descRec (stepWriteOk out t d t rows).st e =
        setProcessed (descRec out.st d) := by
  cases d with
  | detached r =>
      refine ⟨Desc.stored out.st.liveLedger.length, ?_, ⟨_, rfl⟩, ?_⟩
      · rw [stepWriteOk_detached]; simp [replaceDesc]
      · rw [stepWriteOk_detached]
        dsimp only [descRec]
        exact getD_snoc_len _ _
  | stored i =>
      have hi := hb i rfl
      refine ⟨Desc.stored i, ?_, ⟨_, rfl⟩, ?_⟩
      · rw [stepWriteOk_stored]; simp [replaceDesc]
      · rw [stepWriteOk_stored]
        dsimp only [descRec]
        exact getD_set_self _ _ _ hi

theorem stepWriteFail_self (out : RunOut) (t : FileType) (d : Desc)
    (rows : List Nat) (k : Nat) (m : String)
    (hb : ∀ i, storedIdx d = some i → i < out.st.liveLedger.length) :
    ∃ e, (stepWriteFail out t d t rows k m).files t = some e ∧
      (∃ j, e = Desc.stored j) ∧
      descRec (stepWriteFail out t d t rows k m).st e =
        setFailed m (descRec out.st d) := by
  cases d with
  | detached r =>
      refine ⟨Desc.stored out.st.liveLedger.length, ?_, ⟨_, rfl⟩, ?_⟩
      · rw [stepWriteFail_detached]; simp [replaceDesc]
      · rw [stepWriteFail_detached]
        dsimp only [descRec]
        exact getD_snoc_len _ _
  | stored i =>
      have hi := hb i rfl
      refine ⟨Desc.stored i, ?_, ⟨_, rfl⟩, ?_⟩
      · rw [stepWriteFail_stored]; simp [replaceDesc]
      · rw [stepWriteFail_stored]
        dsimp only [descRec]
        exact getD_set_self _ _ _ hi

theorem foldl_attempt_mem (oc : Oracles)
    (hdf : ∀ p, ∃ rs, oc.getDf p = Except.ok rs) (L : List FileType) :
    ∀ (out : RunOut) (t : FileType) (d : Desc), L.Nodup →
      WF out.st out.files → out.err = none →
      t ∈ L → out.files t = some d →
      descStatus out.st d ≠ ProcessingStatus.processed →
      (t ∈ (L.foldl (stepType oc) out).attempts ∧
       (∀ rows k m, oc.getDf (descRec out.st d).path = Except.ok rows →
          oc.write t rows = WriteOutcome.failAt k m →
          ∃ e, (L.foldl (stepType oc) out).files t = some e ∧
            (∃ j, e = Desc.stored j) ∧
            descRec (L.foldl (stepType oc) out).st e =
              setFailed m (descRec out.st d)) ∧
       (∀ rows, oc.getDf (descRec out.st d).path = Except.ok rows →
          oc.write t rows = WriteOutcome.ok →
          ∃ e, (L.foldl (stepType oc) out).files t = some e ∧
            (∃ j, e = Desc.stored j) ∧
            descRec (L.foldl (stepType oc) out).st e =
              setProcessed (descRec out.st d))) := by
  induction L with
  | nil => intro out t d _ _ _ ht _ _; cases ht
  | cons v rest ih =>
      intro out t d hnd hwf herr ht hd hds
      by_cases hvt : t = v
      · subst hvt
        obtain ⟨rs, hrs⟩ := hdf (descRec out.st d).path
        have hload := stepType_of_load oc out t d herr hd hds
        have hload2 := stepLoad_of_parse_ok oc out t d rs hrs
        have htr : t ∉ rest := (List.nodup_cons.mp hnd).1
        have hwfS := stepType_WF oc out t hwf
        have hb : ∀ i, storedIdx d = some i → i < out.st.liveLedger.length :=
          fun i hi => hwf.1 t d i hd hi
        rw [List.foldl_cons]
        cases hw : oc.write t rs with
        | ok =>
            have hstep : stepType oc out t = stepWriteOk out t d t rs := by
              rw [hload, hload2, stepWrite_of_ok oc out t d t rs hw]
            obtain ⟨e, he1, hst, he2⟩ := stepWriteOk_self out t d rs hb
            rw [hstep] at hwfS
            obtain ⟨hfr, hdr⟩ :=
              foldl_other_frame oc rest (stepWriteOk out t d t rs) t htr hwfS
            refine ⟨?_, ?_, ?_⟩
            · obtain ⟨e2, he, _⟩ :=
                foldl_attempts oc rest (stepWriteOk out t d t rs)
              rw [hstep, he, stepWriteOk_attempts]
              simp
            · intro rows k2 m2 hrows hw2
              rw [hrs] at hrows
              injection hrows with hre
              subst hre
              rw [hw] at hw2
              cases hw2
            · intro rows hrows _
              rw [hrs] at hrows
              injection hrows with hre
              subst hre
              refine ⟨e, ?_, hst, ?_⟩
              · rw [hstep, hfr, he1]
              · rw [hstep, hdr e he1, he2]
        | failAt k m =>
            have hstep : stepType oc out t = stepWriteFail out t d t rs k m := by
              rw [hload, hload2, stepWrite_of_fail oc out t d t rs k m hw]
            obtain ⟨e, he1, hst, he2⟩ := stepWriteFail_self out t d rs k m hb
            rw [hstep] at hwfS
            obtain ⟨hfr, hdr⟩ :=
              foldl_other_frame oc rest (stepWriteFail out t d t rs k m) t htr hwfS
            refine ⟨?_, ?_, ?_⟩
            · obtain ⟨e2, he, _⟩ :=
                foldl_attempts oc rest (stepWriteFail out t d t rs k m)
              rw [hstep, he, stepWriteFail_attempts]
              simp
            · intro rows k2 m2 hrows hw2
              rw [hrs] at hrows
              injection hrows with hre
              subst hre
              rw [hw] at hw2
              injection hw2 with hk hm
              subst hk
              subst hm
              refine ⟨e, ?_, hst, ?_⟩
              · rw [hstep, hfr, he1]
              · rw [hstep, hdr e he1, he2]
            · intro rows hrows hw2
              rw [hrs] at hrows
              injection hrows with hre
              subst hre
              rw [hw] at hw2
              cases hw2
      · have hwf2 := stepType_WF oc out v hwf
        have herr2 := stepType_err_none oc out v hdf herr
        have hfr := stepType_files_frame oc out v t hvt
        have hdr := stepType_desc_frame_of_WF oc out v t hwf hvt d hd
        have hd2 : (stepType oc out v).files t = some d := by rw [hfr]; exact hd
        have hds2 : descStatus (stepType oc out v).st d ≠ ProcessingStatus.processed := by
          unfold descStatus at hds ⊢
          rw [hdr]
          exact hds
        have htm : t ∈ rest := by
          rcases List.mem_cons.mp ht with h | h
          · exact absurd h hvt
          · exact h
        rw [List.foldl_cons]
        obtain ⟨h1, h2, h3⟩ := ih (stepType oc out v) t d
          (List.nodup_cons.mp hnd).2 hwf2 herr2 htm hd2 hds2
        refine ⟨h1, ?_, ?_⟩
        · intro rows k2 m2 hrows hw2
          obtain ⟨e, hee, hest, her⟩ := h2 rows k2 m2 (by rw [hdr]; exact hrows) hw2
          exact ⟨e, hee, hest, by rw [her, hdr]⟩
        · intro rows hrows hw2
          obtain ⟨e, hee, hest, her⟩ := h3 rows (by rw [hdr]; exact hrows) hw2
          exact ⟨e, hee, hest, by rw [her, hdr]⟩

/- ------------------------------------------------------------------ -/
/- Lemmas about the reconcile loop.                                   -/
/- ------------------------------------------------------------------ -/

theorem lookupD_cons_self (k : FileType) (v : Desc)
    (rest : List (FileType × Desc)) : lookupD ((k, v) :: rest) k = some v := by
  simp [lookupD]

theorem lookupD_cons_ne (k : FileType) (v : Desc)
    (rest : List (FileType × Desc)) (t : FileType) (h : t ≠ k) :
    lookupD ((k, v) :: rest) t = lookupD rest t := by
  simp only [lookupD]
  rw [if_neg h]

theorem lookupD_mem : ∀ (l : List (FileType × Desc)) (t : FileType) (d : Desc),
    lookupD l t = some d → (t, d) ∈ l := by
  intro l
  induction l with
  | nil => intro t d h; cases h
  | cons p rest ih =>
      intro t d h
      cases p with
      | mk k v =>
          unfold lookupD at h
          by_cases ht : t = k
          · rw [if_pos ht] at h
            injection h with hv
            subst hv
            subst ht
            exact List.mem_cons_self _ _
          · rw [if_neg ht] at h
            exact List.mem_cons_of_mem _ (ih t d h)

theorem anyProcessed_true_iff (l : List FileRec) (x : String) :
    ((l.filter (fun r => r.md5 == x)).any
        (fun r => r.processing_status == ProcessingStatus.processed) = true) ↔
      ∃ r ∈ l, r.md5 = x ∧ r.processing_status = ProcessingStatus.processed := by
  rw [List.any_eq_true]
  constructor
  · rintro ⟨r, hr, hp⟩
    obtain ⟨hrl, hmd⟩ := List.mem_filter.mp hr
    exact ⟨r, hrl, by simpa using hmd, by simpa using hp⟩
  · rintro ⟨r, hrl, hmd, hp⟩
    exact ⟨r, List.mem_filter.mpr ⟨hrl, by simpa using hmd⟩, by simpa using hp⟩

theorem reconcileStep_skip (st : St) (f : FileRec)
    (h : ((st.liveLedger.filter (fun r => r.md5 == f.md5)).any
        (fun r => r.processing_status == ProcessingStatus.processed)) = true) :
    reconcileStep st f = (st, Desc.detached (setProcessed f)) := by
  unfold reconcileStep
  dsimp only
  rw [h]
  rfl

theorem reconcileStep_insert (st : St) (f : FileRec)
    (h : ((st.liveLedger.filter (fun r => r.md5 == f.md5)).any
        (fun r => r.processing_status == ProcessingStatus.processed)) = false) :
    reconcileStep st f =
      ({ st with liveLedger := st.liveLedger ++ [f] },
       Desc.stored st.liveLedger.length) := by
  unfold reconcileStep
  dsimp only
  rw [h]
  rfl

theorem reconLoop_cons (st : St) (t : FileType) (f : FileRec)
    (rest : List (FileType × FileRec)) :
    reconLoop st ((t, f) :: rest) =
      ((reconLoop (reconcileStep st f).1 rest).1,
       (t, (reconcileStep st f).2) :: (reconLoop (reconcileStep st f).1 rest).2) := rfl

theorem reconLoop_cons_skip (st : St) (t : FileType) (f : FileRec)
    (rest : List (FileType × FileRec))
    (h : ((st.liveLedger.filter (fun r => r.md5 == f.md5)).any
        (fun r => r.processing_status == ProcessingStatus.processed)) = true) :
    reconLoop st ((t, f) :: rest) =
      ((reconLoop st rest).1,
       (t, Desc.detached (setProcessed f)) :: (reconLoop st rest).2) := by
  rw [reconLoop_cons, reconcileStep_skip st f h]

theorem reconLoop_cons_insert (st : St) (t : FileType) (f : FileRec)
    (rest : List (FileType × FileRec))
    (h : ((st.liveLedger.filter (fun r => r.md5 == f.md5)).any
        (fun r => r.processing_status == ProcessingStatus.processed)) = false) :
    reconLoop st ((t, f) :: rest) =
      ((reconLoop { st with liveLedger := st.liveLedger ++ [f] } rest).1,
       (t, Desc.stored st.liveLedger.length) ::
         (reconLoop { st with liveLedger := st.liveLedger ++ [f] } rest).2) := by
  rw [reconLoop_cons, reconcileStep_insert st f h]

theorem reconLoop_spec (files : List (FileType × FileRec)) : ∀ st : St,
    (∀ p ∈ files, p.2.processing_status = ProcessingStatus.pending) →
    ((files.map Prod.fst).Nodup) →
    ((∃ ins, (reconLoop st files).1.liveLedger = st.liveLedger ++ ins ∧
        (∀ r ∈ ins, r.processing_status = ProcessingStatus.pending) ∧
        ins.Sublist (files.map Prod.snd) ∧
        (∀ r ∈ ins, ¬ ∃ r2 ∈ st.liveLedger,
            r2.md5 = r.md5 ∧ r2.processing_status = ProcessingStatus.processed)) ∧
     (reconLoop st files).1.dbLedger = st.dbLedger ∧
     (reconLoop st files).1.liveRows = st.liveRows ∧
     (reconLoop st files).1.dbRows = st.dbRows ∧
     (∀ q ∈ (reconLoop st files).2,
        (∀ r, q.2 = Desc.detached r →
           r.processing_status = ProcessingStatus.processed) ∧
        (∀ i, storedIdx q.2 = some i →
           st.liveLedger.length ≤ i ∧
           i < (reconLoop st files).1.liveLedger.length)) ∧
     List.Pairwise (fun p q => ∀ i j, storedIdx p.2 = some i →
        storedIdx q.2 = some j → i ≠ j) (reconLoop st files).2 ∧
     (∀ t f, (t, f) ∈ files →
        (lookupD (reconLoop st files).2 t = some (Desc.detached (setProcessed f)) ∧
           ∃ r ∈ st.liveLedger, r.md5 = f.md5 ∧
             r.processing_status = ProcessingStatus.processed) ∨
        (∃ i, lookupD (reconLoop st files).2 t = some (Desc.stored i) ∧
           st.liveLedger.length ≤ i ∧
           i < (reconLoop st files).1.liveLedger.length ∧
           (reconLoop st files).1.liveLedger.getD i dummyRec = f))) := by
  induction files with
  | nil =>
      intro st _ _
      refine ⟨⟨[], by simp [reconLoop], by simp, ?_, by simp⟩, rfl, rfl, rfl, ?_, ?_, ?_⟩
      · exact List.nil_sublist _
      · intro q hq; exact absurd hq (List.not_mem_nil q)
      · exact List.Pairwise.nil
      · intro t f hf; exact absurd hf (List.not_mem_nil _)
  | cons hd rest ih =>
      intro st hpend hnd
      obtain ⟨t0, f0⟩ := hd
      have hpend0 : f0.processing_status = ProcessingStatus.pending :=
        hpend _ (List.mem_cons_self _ _)
      have hpendr : ∀ p ∈ rest, p.2.processing_status = ProcessingStatus.pending :=
        fun p hp => hpend p (List.mem_cons_of_mem _ hp)
      rw [List.map_cons] at hnd
      have hndp := List.nodup_cons.mp hnd
      have hk0 : t0 ∉ rest.map Prod.fst := hndp.1
      have hndr : (rest.map Prod.fst).Nodup := hndp.2
      have hkey : ∀ t f, (t, f) ∈ rest → t ≠ t0 := by
        intro t f hf hcon
        exact hk0 (hcon ▸ List.mem_map_of_mem Prod.fst hf)
      cases hb : ((st.liveLedger.filter (fun r => r.md5 == f0.md5)).any
          (fun r => r.processing_status == ProcessingStatus.processed)) with
      | true =>
          have hwit : ∃ r ∈ st.liveLedger, r.md5 = f0.md5 ∧
              r.processing_status = ProcessingStatus.processed :=
            (anyProcessed_true_iff _ _).mp hb
          rw [reconLoop_cons_skip st t0 f0 rest hb]
          obtain ⟨⟨ins, hins, hinsp, hinss, hinsw⟩, hdb, hlr, hdr2, hdesc, hpw, hent⟩ :=
            ih st hpendr hndr
          refine ⟨⟨ins, hins, hinsp, ?_, hinsw⟩, hdb, hlr, hdr2, ?_, ?_, ?_⟩
          · exact hinss.trans (List.sublist_cons_self _ _)
          · intro q hq
            rcases List.mem_cons.mp hq with hq | hq
            · subst hq
              constructor
              · intro r hr
                injection hr with hr2
                rw [← hr2]
                rfl
              · intro i hi
                cases hi
            · exact hdesc q hq
          · refine List.Pairwise.cons ?_ hpw
            intro q hq i j hi hj
            cases hi
          · intro t f hf
            rcases List.mem_cons.mp hf with hf | hf
            · injection hf with h1 h2
              subst h1
              subst h2
              left
              exact ⟨lookupD_cons_self _ _ _, hwit⟩
            · have hne := hkey t f hf
              rw [lookupD_cons_ne t0 _ _ t hne]
              exact hent t f hf
      | false =>
          have hnowit : ¬ ∃ r ∈ st.liveLedger, r.md5 = f0.md5 ∧
              r.processing_status = ProcessingStatus.processed := by
            intro hcon
            have := (anyProcessed_true_iff st.liveLedger f0.md5).mpr hcon
            rw [hb] at this
            cases this
          rw [reconLoop_cons_insert st t0 f0 rest hb]
          obtain ⟨⟨ins, hins, hinsp, hinss, hinsw⟩, hdb, hlr, hdr2, hdesc, hpw, hent⟩ :=
            ih { st with liveLedger := st.liveLedger ++ [f0] } hpendr hndr
          have hlen : ∀ x ∈ (reconLoop { st with
              liveLedger := st.liveLedger ++ [f0] } rest).2, ∀ i,
              storedIdx x.2 = some i →
              st.liveLedger.length + 1 ≤ i ∧
              i < (reconLoop { st with
                liveLedger := st.liveLedger ++ [f0] } rest).1.liveLedger.length := by
            intro x hx i hi
            have := (hdesc x hx).2 i hi
            simpa using this
          have hlive2 : (reconLoop { st with
              liveLedger := st.liveLedger ++ [f0] } rest).1.liveLedger =
              st.liveLedger ++ (f0 :: ins) := by
            rw [hins]
            simp
          refine ⟨⟨f0 :: ins, hlive2, ?_, ?_, ?_⟩, hdb, hlr, hdr2, ?_, ?_, ?_⟩
          · intro r hr
            rcases List.mem_cons.mp hr with hr | hr
            · rw [hr]; exact hpend0
            · exact hinsp r hr
          · exact List.Sublist.cons₂ f0 hinss
          · intro r hr
            rcases List.mem_cons.mp hr with hr | hr
            · rw [hr]; exact hnowit
            · intro ⟨r2, hr2, hmd, hp⟩
              exact hinsw r hr ⟨r2, List.mem_append_left _ hr2, hmd, hp⟩
          · intro q hq
            rcases List.mem_cons.mp hq with hq | hq
            · subst hq
              constructor
              · intro r hr
                cases hr
              · intro i hi
                injection hi with hi2
                subst hi2
                refine ⟨Nat.le_refl _, ?_⟩
                rw [hlive2]
                simp
            · obtain ⟨h1, h2⟩ := hdesc q hq
              refine ⟨h1, ?_⟩
              intro i hi
              obtain ⟨ha, hbnd⟩ := hlen q hq i hi
              exact ⟨by omega, hbnd⟩
          · refine List.Pairwise.cons ?_ hpw
            intro q hq i j hi hj
            injection hi with hi2
            subst hi2
            obtain ⟨ha, _⟩ := hlen q hq j hj
            omega
          · intro t f hf
            rcases List.mem_cons.mp hf with hf | hf
            · injection hf with h1 h2
              subst h1
              subst h2
              right
              refine ⟨st.liveLedger.length, ?_, Nat.le_refl _, ?_, ?_⟩
              · exact lookupD_cons_self _ _ _
              · rw [hlive2]; simp
              · rw [hlive2]
                rw [List.getD_append_right _ _ _ _ (Nat.le_refl _)]
                simp
            · have hne := hkey t f hf
              rw [lookupD_cons_ne t0 _ _ t hne]
              rcases hent t f hf with ⟨hlk2, r, hr, hmd, hp⟩ | ⟨i, hlk2, hge, hlt, hgd⟩
              · left
                refine ⟨hlk2, ?_⟩
                rcases List.mem_append.mp hr with hr | hr
                · exact ⟨r, hr, hmd, hp⟩
                · exfalso
                  rw [List.mem_singleton.mp hr] at hp
                  rw [hpend0] at hp
                  cases hp
              · right
                refine ⟨i, hlk2, ?_, hlt, hgd⟩
                simp at hge
                omega

/- ------------------------------------------------------------------ -/
/- Prefix preservation and pipeline plumbing.                         -/
/- ------------------------------------------------------------------ -/

theorem stepType_prefix_frame (oc : Oracles) (out : RunOut) (t : FileType)
    (n : Nat) (hn : n ≤ out.st.liveLedger.length)
    (hidx : ∀ u d i, out.files u = some d → storedIdx d = some i → n ≤ i) :
    ((∀ j, j < n → (stepType oc out t).st.liveLedger.getD j dummyRec =
        out.st.liveLedger.getD j dummyRec) ∧
     n ≤ (stepType oc out t).st.liveLedger.length ∧
     (∀ u d i, (stepType oc out t).files u = some d →
        storedIdx d = some i → n ≤ i)) := by
  refine stepType_elim oc out t (fun o =>
      (∀ j, j < n → o.st.liveLedger.getD j dummyRec =
        out.st.liveLedger.getD j dummyRec) ∧
      n ≤ o.st.liveLedger.length ∧
      (∀ u d i, o.files u = some d → storedIdx d = some i → n ≤ i))
    ⟨fun j _ => rfl, hn, hidx⟩ ?_ ?_ ?_
  · intro d m _ _ _ _
    exact ⟨fun j _ => rfl, hn, hidx⟩
  · intro d rows _ hf _ _ _
    cases d with
    | detached r =>
        rw [stepWriteOk_detached]
        refine ⟨?_, ?_, ?_⟩
        · intro j hj
          exact List.getD_append _ _ _ _ (Nat.lt_of_lt_of_le hj hn)
        · dsimp only
          simp only [List.length_append, List.length_cons, List.length_nil]
          omega
        · intro u e i hu hi
          dsimp only at hu
          unfold replaceDesc at hu
          by_cases hut : u = t
          · rw [if_pos hut] at hu
            injection hu with hu2
            rw [← hu2] at hi
            simp only [storedIdx] at hi
            injection hi with hi2
            omega
          · rw [if_neg hut] at hu
            exact hidx u e i hu hi
    | stored i0 =>
        have hi0 : n ≤ i0 := hidx t (Desc.stored i0) i0 hf rfl
        rw [stepWriteOk_stored]
        refine ⟨?_, ?_, ?_⟩
        · intro j hj
          exact getD_set_ne _ _ _ _ (by omega)
        · dsimp only
          simpa using hn
        · intro u e i hu hi
          dsimp only at hu
          unfold replaceDesc at hu
          by_cases hut : u = t
          · rw [if_pos hut] at hu
            injection hu with hu2
            rw [← hu2] at hi
            simp only [storedIdx] at hi
            injection hi with hi2
            omega
          · rw [if_neg hut] at hu
            exact hidx u e i hu hi
  · intro d rows k m _ hf _ _ _
    cases d with
    | detached r =>
        rw [stepWriteFail_detached]
        refine ⟨?_, ?_, ?_⟩
        · intro j hj
          exact List.getD_append _ _ _ _ (Nat.lt_of_lt_of_le hj hn)
        · dsimp only
          simp only [List.length_append, List.length_cons, List.length_nil]
          omega
        · intro u e i hu hi
          dsimp only at hu
          unfold replaceDesc at hu
          by_cases hut : u = t
          · rw [if_pos hut] at hu
            injection hu with hu2
            rw [← hu2] at hi
            simp only [storedIdx] at hi
            injection hi with hi2
            omega
          · rw [if_neg hut] at hu
            exact hidx u e i hu hi
    | stored i0 =>
        have hi0 : n ≤ i0 := hidx t (Desc.stored i0) i0 hf rfl
        rw [stepWriteFail_stored]
        refine ⟨?_, ?_, ?_⟩
        · intro j hj
          exact getD_set_ne _ _ _ _ (by omega)
        · dsimp only
          simpa using hn
        · intro u e i hu hi
          dsimp only at hu
          unfold replaceDesc at hu
          by_cases hut : u = t
          · rw [if_pos hut] at hu
            injection hu with hu2
            rw [← hu2] at hi
            simp only [storedIdx] at hi
            injection hi with hi2
            omega
          · rw [if_neg hut] at hu
            exact hidx u e i hu hi

theorem foldl_prefix_frame (oc : Oracles) (L : List FileType) :
    ∀ (out : RunOut) (n : Nat), n ≤ out.st.liveLedger.length →
      (∀ u d i, out.files u = some d → storedIdx d = some i → n ≤ i) →
      ∀ j, j < n →
        (L.foldl (stepType oc) out).st.liveLedger.getD j dummyRec =
          out.st.liveLedger.getD j dummyRec := by
  induction L with
  | nil => intro out n _ _ j _; rfl
  | cons v rest ihL =>
      intro out n hn hidx j hj
      obtain ⟨h1, h2, h3⟩ := stepType_prefix_frame oc out v n hn hidx
      rw [List.foldl_cons, ihL (stepType oc out v) n h2 h3 j hj, h1 j hj]

theorem foldl_live_len (oc : Oracles) (L : List FileType) :
    ∀ out : RunOut, out.st.liveLedger.length ≤
      (L.foldl (stepType oc) out).st.liveLedger.length := by
  induction L with
  | nil => intro out; exact Nat.le_refl _
  | cons v rest ihL =>
      intro out
      rw [List.foldl_cons]
      exact (stepType_live_len oc out v).trans (ihL (stepType oc out v))

theorem reconLoop_all_processed (files : List (FileType × FileRec)) :
    ∀ st : St,
      (∀ p ∈ files, ∃ r ∈ st.liveLedger, r.md5 = p.2.md5 ∧
          r.processing_status = ProcessingStatus.processed) →
      reconLoop st files =
        (st, files.map (fun p => (p.1, Desc.detached (setProcessed p.2)))) := by
  induction files with
  | nil => intro st _; rfl
  | cons hd rest ih =>
      intro st h
      obtain ⟨t0, f0⟩ := hd
      have hb : ((st.liveLedger.filter (fun r => r.md5 == f0.md5)).any
          (fun r => r.processing_status == ProcessingStatus.processed)) = true :=
        (anyProcessed_true_iff _ _).mpr (h _ (List.mem_cons_self _ _))
      rw [reconLoop_cons_skip st t0 f0 rest hb,
        ih st (fun p hp => h p (List.mem_cons_of_mem _ hp))]
      rfl

theorem foldl_all_skip (oc : Oracles) (L : List FileType) :
    ∀ out : RunOut,
      (∀ t d, out.files t = some d → ∃ r, d = Desc.detached r ∧
          r.processing_status = ProcessingStatus.processed) →
      L.foldl (stepType oc) out = out := by
  induction L with
  | nil => intro out _; rfl
  | cons v rest ih =>
      intro out h
      have hstep : stepType oc out v = out := by
        by_cases he : out.err.isSome
        · exact stepType_of_err oc out v he
        · have hnone := Option.not_isSome_iff_eq_none.mp he
          cases hf : out.files v with
          | none => exact stepType_of_absent oc out v hnone hf
          | some d =>
              obtain ⟨r, hr, hp⟩ := h v d hf
              refine stepType_of_processed oc out v d hnone hf ?_
              rw [hr]
              exact hp
      rw [List.foldl_cons, hstep]
      exact ih out h

theorem pipelineOnce_fst_of_err_none (oc : Oracles) (db : Db)
    (files : List (FileType × FileRec))
    (h : (add_data_to_db oc (commit (reconLoop (sessionStart db) files).1)
        (filesFun (reconLoop (sessionStart db) files).2)).err = none) :
    (pipelineOnce oc db files).1 =
      dbOf (commit (add_data_to_db oc
        (commit (reconLoop (sessionStart db) files).1)
        (filesFun (reconLoop (sessionStart db) files).2)).st) := by
  unfold pipelineOnce update_raw_accidents_csv_files_table
  dsimp only
  rw [h]
  rfl

theorem pipelineOnce_snd (oc : Oracles) (db : Db)
    (files : List (FileType × FileRec)) :
    (pipelineOnce oc db files).2 =
      add_data_to_db oc (commit (reconLoop (sessionStart db) files).1)
        (filesFun (reconLoop (sessionStart db) files).2) := by
  unfold pipelineOnce update_raw_accidents_csv_files_table
  dsimp only
  split <;> rfl

theorem pipelineOnce_noop (oc : Oracles) (db : Db)
    (files : List (FileType × FileRec))
    (h : ∀ p ∈ files, ∃ r ∈ db.ledger, r.md5 = p.2.md5 ∧
        r.processing_status = ProcessingStatus.processed) :
    (pipelineOnce oc db files).1 = db := by
  have hloop := reconLoop_all_processed files (sessionStart db) h
  have hskip : ∀ t d, filesFun (files.map
      (fun p => (p.1, Desc.detached (setProcessed p.2)))) t = some d →
      ∃ r, d = Desc.detached r ∧
        r.processing_status = ProcessingStatus.processed := by
    intro t d hd
    obtain ⟨p, hp, hpe⟩ := List.mem_map.mp (lookupD_mem _ _ _ hd)
    injection hpe with h1 h2
    exact ⟨setProcessed p.2, h2.symm, rfl⟩
  unfold pipelineOnce update_raw_accidents_csv_files_table
  dsimp only
  rw [hloop]
  dsimp only
  unfold add_data_to_db
  rw [foldl_all_skip oc order_files
    (RunOut.mk (commit (sessionStart db))
      (filesFun (files.map (fun p => (p.1, Desc.detached (setProcessed p.2)))))
      none [] []) hskip]
  rfl

theorem pipelineOnce_marks_processed (oc : Oracles) (db : Db)
    (files : List (FileType × FileRec))
    (hnd : (files.map Prod.fst).Nodup)
    (hpend : ∀ p ∈ files, p.2.processing_status = ProcessingStatus.pending)
    (hdf : ∀ p, ∃ rs, oc.getDf p = Except.ok rs)
    (hwr : ∀ tb rows, oc.write tb rows = WriteOutcome.ok) :
    ∀ p ∈ files, ∃ r ∈ (pipelineOnce oc db files).1.ledger,
      r.md5 = p.2.md5 ∧ r.processing_status = ProcessingStatus.processed := by
  obtain ⟨⟨ins, hins, hinsp, hinss, hinsw⟩, hdbL, hlivR, hdbR, hdesc, hpw, hent⟩ :=
    reconLoop_spec files (sessionStart db) hpend hnd
  set LP := reconLoop (sessionStart db) files with hLP
  set OUT0 := RunOut.mk (commit LP.1) (filesFun LP.2) none [] [] with hOUT0
  set RES := List.foldl (stepType oc) OUT0 order_files with hRES
  have herr : RES.err = none := foldl_err_none oc hdf order_files OUT0 rfl
  have hfst : (pipelineOnce oc db files).1 = dbOf (commit RES.st) :=
    pipelineOnce_fst_of_err_none oc db files herr
  have hwf : WF OUT0.st OUT0.files := by
    constructor
    · intro u d i hu hi
      have hm := lookupD_mem _ u d hu
      exact ((hdesc _ hm).2 i hi).2
    · intro u v d e i huv hu hv hi hj
      have hmu := lookupD_mem _ u d hu
      have hmv := lookupD_mem _ v e hv
      have hne : (u, d) ≠ (v, e) := by
        intro hcon
        injection hcon with h1 _
        exact huv h1
      have hsymm : Symmetric (fun p q : FileType × Desc => ∀ a b,
          storedIdx p.2 = some a → storedIdx q.2 = some b → a ≠ b) :=
        fun p q hpq a b ha hb => (hpq b a hb ha).symm
      exact (hpw.forall hsymm hmu hmv hne) i i hi hj rfl
  intro p hp
  obtain ⟨t, f⟩ := p
  rcases hent t f hp with ⟨hlk, r, hr, hmd, hpr⟩ | ⟨i, hlk, hge, hlt, hgd⟩
  · obtain ⟨j, hj, hje⟩ := List.getElem_of_mem hr
    have hn1 : db.ledger.length ≤ OUT0.st.liveLedger.length := by
      show db.ledger.length ≤ LP.1.liveLedger.length
      rw [hins]
      simp [sessionStart]
    have hidx0 : ∀ u d i2, OUT0.files u = some d → storedIdx d = some i2 →
        db.ledger.length ≤ i2 := by
      intro u d i2 hu hi2
      have hm := lookupD_mem _ u d hu
      exact ((hdesc _ hm).2 i2 hi2).1
    have hpre := foldl_prefix_frame oc order_files OUT0 db.ledger.length
      hn1 hidx0 j hj
    have hjlen : j < RES.st.liveLedger.length :=
      Nat.lt_of_lt_of_le hj (hn1.trans (foldl_live_len oc order_files OUT0))
    have hval : RES.st.liveLedger.getD j dummyRec = r := by
      rw [hpre]
      show LP.1.liveLedger.getD j dummyRec = r
      rw [hins, List.getD_append _ _ _ _ hj, List.getD_eq_getElem _ _ hj]
      exact hje
    refine ⟨r, ?_, hmd, hpr⟩
    rw [hfst]
    show r ∈ RES.st.liveLedger
    rw [← hval, List.getD_eq_getElem _ _ hjlen]
    exact List.getElem_mem _
  · have hstat : descStatus OUT0.st (Desc.stored i) ≠
        ProcessingStatus.processed := by
      show (LP.1.liveLedger.getD i dummyRec).processing_status ≠ _
      rw [hgd, hpend (t, f) hp]
      intro hcon
      cases hcon
    obtain ⟨rs, hrs⟩ := hdf (descRec OUT0.st (Desc.stored i)).path
    obtain ⟨_, _, h3⟩ := foldl_attempt_mem oc hdf order_files OUT0 t
      (Desc.stored i) (by decide) hwf rfl (by cases t <;> decide) hlk hstat
    obtain ⟨e, he1, ⟨j, hej⟩, he2⟩ := h3 rs hrs (hwr t rs)
    subst hej
    have hjb : j < RES.st.liveLedger.length :=
      (foldl_WF oc order_files OUT0 hwf).1 t (Desc.stored j) j he1 rfl
    have hdrec : descRec OUT0.st (Desc.stored i) = f := hgd
    have hval : RES.st.liveLedger.getD j dummyRec = setProcessed f := by
      have : descRec RES.st (Desc.stored j) = setProcessed f := by
        rw [he2, hdrec]
      exact this
    refine ⟨setProcessed f, ?_, rfl, rfl⟩
    rw [hfst]
    show setProcessed f ∈ RES.st.liveLedger
    rw [← hval, List.getD_eq_getElem _ _ hjb]
    exact List.getElem_mem _

/- ------------------------------------------------------------------ -/
/- Claim C8.                                                          -/
/- ------------------------------------------------------------------ -/

/-- Claim C8: the connection URL is NOT determined by the environment port
setting — the format call hardcodes 5432 — so two environments differing
only in their port produce the same connection target; at the failing input
`POSTGRES_PORT = 6543` the URL still carries 5432. -/
theorem c8_port_ignored_in_db_url :
    (∀ (e : Env) (p1 p2 : String),
        db_url { e with port := p1 } = db_url { e with port := p2 }) ∧
    db_url ⟨"h", "d", "u", "p", "6543"⟩ = "postgresql+psycopg2://u:p@h:5432/d" := by
  constructor
  · intro e p1 p2; rfl
  · rfl

/- ------------------------------------------------------------------ -/
/- Claim C4.                                                          -/
/- ------------------------------------------------------------------ -/

theorem init_db_loop_success (attempt : Nat → AttemptOutcome) (s : Nat)
    (n : Nat) :
    ∀ (i slept fuel : Nat),
      (∀ j, j < n → attempt (i + j) = AttemptOutcome.operationalError) →
      attempt (i + n) = AttemptOutcome.ok → n < fuel →
      init_db_loop attempt s i slept fuel =
        InitResult.success (i + n) (slept + s * n) := by
  induction n with
  | zero =>
      intro i slept fuel _ hok hf
      obtain ⟨f, rfl⟩ : ∃ f, fuel = f + 1 := ⟨fuel - 1, by omega⟩
      rw [Nat.add_zero] at hok
      simp only [init_db_loop, hok, Nat.add_zero, Nat.mul_zero]
  | succ n ih =>
      intro i slept fuel hop hok hf
      obtain ⟨f, rfl⟩ : ∃ f, fuel = f + 1 := ⟨fuel - 1, by omega⟩
      have h0 : attempt i = AttemptOutcome.operationalError := by
        have := hop 0 (by omega)
        simpa using this
      simp only [init_db_loop, h0]
      have h1 : ∀ j, j < n → attempt (i + 1 + j) = AttemptOutcome.operationalError := by
        intro j hj
        have := hop (j + 1) (by omega)
        have e : i + (j + 1) = i + 1 + j := by omega
        rwa [e] at this
      have h2 : attempt (i + 1 + n) = AttemptOutcome.ok := by
        have e : i + (n + 1) = i + 1 + n := by omega
        rwa [e] at hok
      rw [ih (i + 1) (slept + s) f h1 h2 (by omega)]
      congr 1
      · omega
      · ring

theorem init_db_loop_raised (attempt : Nat → AttemptOutcome) (s : Nat)
    (n : Nat) :
    ∀ (i slept fuel : Nat) (m : String),
      (∀ j, j < n → attempt (i + j) = AttemptOutcome.operationalError) →
      attempt (i + n) = AttemptOutcome.otherError m → n < fuel →
      init_db_loop attempt s i slept fuel =
        InitResult.raised m (i + n) (slept + s * n) := by
  induction n with
  | zero =>
      intro i slept fuel m _ hko hf
      obtain ⟨f, rfl⟩ : ∃ f, fuel = f + 1 := ⟨fuel - 1, by omega⟩
      rw [Nat.add_zero] at hko
      simp only [init_db_loop, hko, Nat.add_zero, Nat.mul_zero]
  | succ n ih =>
      intro i slept fuel m hop hko hf
      obtain ⟨f, rfl⟩ : ∃ f, fuel = f + 1 := ⟨fuel - 1, by omega⟩
      have h0 : attempt i = AttemptOutcome.operationalError := by
        have := hop 0 (by omega)
        simpa using this
      simp only [init_db_loop, h0]
      have h1 : ∀ j, j < n → attempt (i + 1 + j) = AttemptOutcome.operationalError := by
        intro j hj
        have := hop (j + 1) (by omega)
        have e : i + (j + 1) = i + 1 + j := by omega
        rwa [e] at this
      have h2 : attempt (i + 1 + n) = AttemptOutcome.otherError m := by
        have e : i + (n + 1) = i + 1 + n := by omega
        rwa [e] at hko
      rw [ih (i + 1) (slept + s) f m h1 h2 (by omega)]
      congr 1
      · omega
      · ring

theorem init_db_loop_retrying (attempt : Nat → AttemptOutcome) (s : Nat) :
    ∀ (fuel n i slept : Nat),
      (∀ j, j < n → attempt (i + j) = AttemptOutcome.operationalError) →
      fuel ≤ n →
      init_db_loop attempt s i slept fuel = InitResult.stillRetrying := by
  intro fuel
  induction fuel with
  | zero => intro n i slept _ _; rfl
  | succ f ih =>
      intro n i slept hop hf
      have h0 : attempt i = AttemptOutcome.operationalError := by
        have := hop 0 (by omega)
        simpa using this
      simp only [init_db_loop, h0]
      exact ih (n - 1) (i + 1) (slept + s)
        (fun j hj => by
          have := hop (j + 1) (by omega)
          have e : i + (j + 1) = i + 1 + j := by omega
          rwa [e] at this)
        (by omega)

/-- Claim C4: init_db retries table creation with the default fixed sleep of
30 time-units while attempts keep failing with the transient
OperationalError (never terminating as long as they do), propagates any
other exception immediately with no further retry or sleep, and returns
right after the first successful attempt; in particular after `n` transient
rejections followed by an acceptance it succeeds with exactly `n` retries
and `30 * n` time-units slept, and for `n = 2` that is exactly two retries
and no error. -/
theorem c4_init_db_retry_discipline (attempt : Nat → AttemptOutcome) (n : Nat)
    (hop : ∀ j, j < n → attempt j = AttemptOutcome.operationalError) :
    (attempt n = AttemptOutcome.ok →
       ∀ fuel, n < fuel →
         init_db attempt fuel = InitResult.success n (30 * n)) ∧
    (∀ m, attempt n = AttemptOutcome.otherError m →
       ∀ fuel, n < fuel →
         init_db attempt fuel = InitResult.raised m n (30 * n)) ∧
    (∀ fuel, fuel ≤ n → init_db attempt fuel = InitResult.stillRetrying) := by
  refine ⟨?_, ?_, ?_⟩
  · intro hok fuel hf
    have := init_db_loop_success attempt 30 n 0 0 fuel
      (fun j hj => by simpa using hop j hj) (by simpa using hok) hf
    simpa [init_db] using this
  · intro m hko fuel hf
    have := init_db_loop_raised attempt 30 n 0 0 fuel m
      (fun j hj => by simpa using hop j hj) (by simpa using hko) hf
    simpa [init_db] using this
  · intro fuel hf
    exact init_db_loop_retrying attempt 30 fuel n 0 0
      (fun j hj => by simpa using hop j hj) hf

theorem c4_init_db_retry_discipline_witness :
    init_db c4Attempt 3 = InitResult.success 2 60 :=
  (c4_init_db_retry_discipline c4Attempt 2
      (fun j hj => by interval_cases j <;> rfl)).1 (by rfl) 3 (by omega)

/- ------------------------------------------------------------------ -/
/- Claim C10.                                                         -/
/- ------------------------------------------------------------------ -/

theorem stepType_err_kinds (oc : Oracles) (out : RunOut) (t : FileType) :
    (stepType oc out t).err = out.err ∨
      ∃ m, (stepType oc out t).err = some (ErrKind.parseError m) := by
  by_cases h : out.err.isSome
  · rw [stepType_of_err oc out t h]; left; rfl
  · have hnone : out.err = none := Option.not_isSome_iff_eq_none.mp h
    cases hf : out.files t with
    | none => rw [stepType_of_absent oc out t hnone hf]; left; rfl
    | some d =>
        by_cases hs : descStatus out.st d = ProcessingStatus.processed
        · rw [stepType_of_processed oc out t d hnone hf hs]; left; rfl
        · rw [stepType_of_load oc out t d hnone hf hs]
          cases hdf : oc.getDf (descRec out.st d).path with
          | error m =>
              rw [stepLoad_of_parse_err oc out t d m hdf]
              right; exact ⟨m, rfl⟩
          | ok rows =>
              rw [stepLoad_of_parse_ok oc out t d rows hdf]
              cases hw : oc.write t rows with
              | ok => rw [stepWrite_of_ok oc out t d t rows hw]; left; rfl
              | failAt k m =>
                  rw [stepWrite_of_fail oc out t d t rows k m hw]; left; rfl

/-- Claim C10: the unknown-raw-file RuntimeError branch of add_data_to_db is
unreachable — every one of the four enumerated types is matched to a table
model, and no execution of add_data_to_db ever raises the unknown-file
error. -/
theorem c10_unknown_file_unreachable (oc : Oracles) (st : St)
    (files : FileType → Option Desc) :
    (∀ t, (tableModelFor t).isSome) ∧
    (∀ t, (add_data_to_db oc st files).err ≠ some (ErrKind.unknownFile t)) := by
  constructor
  · intro t; rw [tableModelFor_eq]; rfl
  · have key : ∀ (l : List FileType) (out : RunOut),
        (∀ u, out.err ≠ some (ErrKind.unknownFile u)) →
        ∀ u, (l.foldl (stepType oc) out).err ≠ some (ErrKind.unknownFile u) := by
      intro l
      induction l with
      | nil => intro out h u; simpa using h u
      | cons t rest ih =>
          intro out h u
          simp only [List.foldl_cons]
          refine ih (stepType oc out t) ?_ u
          intro v
          rcases stepType_err_kinds oc out t with he | ⟨m, he⟩
          · rw [he]; exact h v
          · rw [he]; intro hcon; cases hcon
    intro t
    exact key order_files (RunOut.mk st files none [] []) (by intro u; simp) t

/- ------------------------------------------------------------------ -/
/- Claim C3.                                                          -/
/- ------------------------------------------------------------------ -/

/-- Claim C3: add_data_to_db attempts loads in the fixed dependency order —
the attempted-types list is always an order-preserving sublist of
characteristics, locations, vehicles, users, whatever the input mapping —
and when all four types are present and none is already processed, the
characteristics load is the first one attempted, hence attempted before
each of the other three. -/
theorem c3_dependency_order (oc : Oracles) (st : St)
    (files : FileType → Option Desc) :
    (add_data_to_db oc st files).attempts.Sublist order_files ∧
    ((∀ t, ∃ d, files t = some d ∧
        descStatus st d ≠ ProcessingStatus.processed) →
      (add_data_to_db oc st files).attempts.head? =
        some FileType.caracteristiques) := by
  constructor
  · obtain ⟨e, he, hs⟩ := foldl_attempts oc order_files (RunOut.mk st files none [] [])
    unfold add_data_to_db
    rw [he]
    simpa using hs
  · intro h
    obtain ⟨d, hd, hds⟩ := h FileType.caracteristiques
    have h1 : (stepType oc (RunOut.mk st files none [] [])
        FileType.caracteristiques).attempts = [FileType.caracteristiques] := by
      rw [stepType_of_load oc _ _ d rfl hd hds, stepLoad_attempts]
      rfl
    unfold add_data_to_db order_files
    rw [List.foldl_cons]
    obtain ⟨e, he, _⟩ := foldl_attempts oc
      [FileType.lieux, FileType.vehicules, FileType.usagers]
      (stepType oc (RunOut.mk st files none [] []) FileType.caracteristiques)
    rw [he, h1]
    rfl

theorem c3_dependency_order_witness :
    (add_data_to_db ocOk stEmpty c2Files).attempts.head? =
      some FileType.caracteristiques :=
  (c3_dependency_order ocOk stEmpty c2Files).2
    (fun t => by cases t <;> exact ⟨_, rfl, by decide⟩)

/- ------------------------------------------------------------------ -/
/- Claim C6.                                                          -/
/- ------------------------------------------------------------------ -/

theorem WF_of_no_stored (st : St) (files : FileType → Option Desc)
    (h : ∀ t d, files t = some d → storedIdx d = none) : WF st files := by
  constructor
  · intro t d i hd hi
    rw [h t d hd] at hi
    cases hi
  · intro t u d e i _ hd _ hi _
    rw [h t d hd] at hi
    cases hi

/-- Claim C6: a file whose descriptor is already marked processed is never
loaded — its type is never attempted and no row tagged with its type is
added to the session, even while other loads fail — and conversely every
attempted type is present in the input and not already marked processed. -/
theorem c6_processed_files_never_reloaded (oc : Oracles) (st : St)
    (files : FileType → Option Desc) (hwf : WF st files) :
    (∀ t d, files t = some d →
       descStatus st d = ProcessingStatus.processed →
       (t ∉ (add_data_to_db oc st files).attempts ∧
        (add_data_to_db oc st files).st.liveRows.filter (fun p => p.1 == t) =
          st.liveRows.filter (fun p => p.1 == t))) ∧
    (∀ t, t ∈ (add_data_to_db oc st files).attempts →
       ∃ d, files t = some d ∧
         descStatus st d ≠ ProcessingStatus.processed) := by
  constructor
  · intro t d hd hds
    obtain ⟨h1, h2⟩ := foldl_skip_frame oc order_files
      (RunOut.mk st files none [] []) t d hwf hd hds
    constructor
    · intro hmem
      rcases h2 t hmem with h | h
      · exact absurd h (List.not_mem_nil t)
      · exact h rfl
    · exact h1
  · intro t hmem
    rcases foldl_attempts_source oc order_files (RunOut.mk st files none [] [])
        (by decide) hwf t hmem with h | ⟨_, d, hd, hds⟩
    · exact absurd h (List.not_mem_nil t)
    · exact ⟨d, hd, hds⟩

theorem c6_processed_files_never_reloaded_witness :
    FileType.vehicules ∉ (add_data_to_db ocOk stEmpty c6Files).attempts :=
  ((c6_processed_files_never_reloaded ocOk stEmpty c6Files
      (WF_of_no_stored _ _ (by intro t d hd; cases t <;> cases hd <;> rfl))).1
    FileType.vehicules
    (Desc.detached (recProcessed FileType.vehicules "hv" "pv")) rfl rfl).1

/- ------------------------------------------------------------------ -/
/- Claim C2.                                                          -/
/- ------------------------------------------------------------------ -/

/-- Claim C2 counterexample: with healthy parses except on the vehicles
path, the claimed behaviour fails — add_data_to_db re-raises the parse
exception instead of catching it, leaves the vehicles file pending (never
marked failed, no reason recorded), and never attempts the users type, so
a failure of one type does prevent attempts on the others. -/
theorem c2_counterexample :
    (add_data_to_db ocParseFailVeh stEmpty c2Files).err =
        some (ErrKind.parseError "boom") ∧
    FileType.usagers ∉ (add_data_to_db ocParseFailVeh stEmpty c2Files).attempts ∧
    (add_data_to_db ocParseFailVeh stEmpty c2Files).files FileType.vehicules =
        some (Desc.detached (recOf FileType.vehicules "hv" "pv")) ∧
    descStatus (add_data_to_db ocParseFailVeh stEmpty c2Files).st
        (Desc.detached (recOf FileType.vehicules "hv" "pv")) =
      ProcessingStatus.pending := by
  refine ⟨by decide, by decide, by decide, by decide⟩

/-- Claim C2 (amended): it is exceptions raised inside the write
(_add_data_to_table) that add_data_to_db catches — the dataframe load is
performed outside the try block, so a parse exception propagates (see the
counterexample). Provided the parser succeeds on every path, add_data_to_db
never re-raises: it finishes with no propagating exception, attempts every
present not-yet-processed type in the fixed order even when other writes
fail, and marks each type whose write raised as failed with the non-empty
reason capturing the exception's message. -/
theorem c2_write_fault_isolation (oc : Oracles) (st : St)
    (files : FileType → Option Desc) (hwf : WF st files)
    (hdf : ∀ p, ∃ rs, oc.getDf p = Except.ok rs) :
    (add_data_to_db oc st files).err = none ∧
    (∀ t d, files t = some d →
       descStatus st d ≠ ProcessingStatus.processed →
       t ∈ (add_data_to_db oc st files).attempts) ∧
    (∀ t d rows k m, files t = some d →
       descStatus st d ≠ ProcessingStatus.processed →
       oc.getDf (descRec st d).path = Except.ok rows →
       oc.write t rows = WriteOutcome.failAt k m →
       ∃ e, (add_data_to_db oc st files).files t = some e ∧
         descStatus (add_data_to_db oc st files).st e =
           ProcessingStatus.failed ∧
         (descRec (add_data_to_db oc st files).st e).reason =
           some ("Exception raised: " ++ m) ∧
         "Exception raised: " ++ m ≠ "") := by
  refine ⟨foldl_err_none oc hdf order_files _ rfl, ?_, ?_⟩
  · intro t d hd hds
    exact (foldl_attempt_mem oc hdf order_files (RunOut.mk st files none [] [])
      t d (by decide) hwf rfl (by cases t <;> decide) hd hds).1
  · intro t d rows k m hd hds hrows hw
    obtain ⟨_, h2, _⟩ := foldl_attempt_mem oc hdf order_files
      (RunOut.mk st files none [] []) t d (by decide) hwf rfl
      (by cases t <;> decide) hd hds
    obtain ⟨e, he1, _, he2⟩ := h2 rows k m hrows hw
    refine ⟨e, he1, ?_, ?_, ?_⟩
    · unfold descStatus add_data_to_db
      rw [he2]
      rfl
    · unfold add_data_to_db
      rw [he2]
      rfl
    · intro hcon
      have hz : ("Exception raised: " ++ m).length = 0 := by rw [hcon]; rfl
      rw [String.length_append] at hz
      have h18 : ("Exception raised: ").length = 18 := rfl
      omega

theorem c2_write_fault_isolation_witness :
    (add_data_to_db ocFailAll stEmpty c2Files).err = none ∧
    FileType.vehicules ∈ (add_data_to_db ocFailAll stEmpty c2Files).attempts :=
  ⟨(c2_write_fault_isolation ocFailAll stEmpty c2Files
      (WF_of_no_stored _ _ (by intro t d hd; cases t <;> cases hd <;> rfl))
      (fun p => ⟨[5, 6], rfl⟩)).1,
   (c2_write_fault_isolation ocFailAll stEmpty c2Files
      (WF_of_no_stored _ _ (by intro t d hd; cases t <;> cases hd <;> rfl))
      (fun p => ⟨[5, 6], rfl⟩)).2.1 FileType.vehicules
     (Desc.detached (recOf FileType.vehicules "hv" "pv")) rfl (by decide)⟩

/- ------------------------------------------------------------------ -/
/- Claim C9.                                                          -/
/- ------------------------------------------------------------------ -/

theorem stepType_commits_mono (oc : Oracles) (out : RunOut) (t : FileType) :
    ∃ e, (stepType oc out t).commits = out.commits ++ e := by
  refine stepType_elim oc out t (fun o => ∃ e, o.commits = out.commits ++ e)
    ⟨[], by simp⟩ ?_ ?_ ?_
  · intro d m _ _ _ _; exact ⟨[], by simp⟩
  · intro d rows _ _ _ _ _
    cases d with
    | detached r => rw [stepWriteOk_detached]; exact ⟨_, rfl⟩
    | stored i => rw [stepWriteOk_stored]; exact ⟨_, rfl⟩
  · intro d rows k m _ _ _ _ _
    cases d with
    | detached r => rw [stepWriteFail_detached]; exact ⟨[], by simp⟩
    | stored i => rw [stepWriteFail_stored]; exact ⟨[], by simp⟩

theorem stepType_commits_db (oc : Oracles) (out : RunOut) (t : FileType) :
    (stepType oc out t).commits = out.commits →
      (stepType oc out t).st.dbLedger = out.st.dbLedger ∧
      (stepType oc out t).st.dbRows = out.st.dbRows := by
  refine stepType_elim oc out t (fun o => o.commits = out.commits →
      o.st.dbLedger = out.st.dbLedger ∧ o.st.dbRows = out.st.dbRows)
    (fun _ => ⟨rfl, rfl⟩) ?_ ?_ ?_
  · intro d m _ _ _ _ _; exact ⟨rfl, rfl⟩
  · intro d rows _ _ _ _ _ hcom
    exfalso
    cases d with
    | detached r => rw [stepWriteOk_detached] at hcom; simp at hcom
    | stored i => rw [stepWriteOk_stored] at hcom; simp at hcom
  · intro d rows k m _ _ _ _ _ _
    cases d with
    | detached r => rw [stepWriteFail_detached]; exact ⟨rfl, rfl⟩
    | stored i => rw [stepWriteFail_stored]; exact ⟨rfl, rfl⟩

theorem stepType_commits_entries (oc : Oracles) (out : RunOut) (t : FileType) :
    ∀ p, p ∈ (stepType oc out t).commits →
      p ∈ out.commits ∨ p.2 ≠ ProcessingStatus.processed := by
  refine stepType_elim oc out t (fun o => ∀ p, p ∈ o.commits →
      p ∈ out.commits ∨ p.2 ≠ ProcessingStatus.processed)
    (fun p hp => Or.inl hp) ?_ ?_ ?_
  · intro d m _ _ _ _ p hp; exact Or.inl hp
  · intro d rows _ _ hs _ _ p hp
    cases d with
    | detached r =>
        rw [stepWriteOk_detached] at hp
        dsimp only at hp
        rcases List.mem_append.mp hp with h | h
        · exact Or.inl h
        · right
          rw [List.mem_singleton.mp h]
          exact hs
    | stored i =>
        rw [stepWriteOk_stored] at hp
        dsimp only at hp
        rcases List.mem_append.mp hp with h | h
        · exact Or.inl h
        · right
          rw [List.mem_singleton.mp h]
          exact hs
  · intro d rows k m _ _ _ _ _ p hp
    cases d with
    | detached r => rw [stepWriteFail_detached] at hp; exact Or.inl hp
    | stored i => rw [stepWriteFail_stored] at hp; exact Or.inl hp

theorem foldl_commits_mono (oc : Oracles) (L : List FileType) :
    ∀ out : RunOut, ∃ e, (L.foldl (stepType oc) out).commits = out.commits ++ e := by
  induction L with
  | nil => intro out; exact ⟨[], by simp⟩
  | cons v rest ih =>
      intro out
      obtain ⟨e1, he1⟩ := stepType_commits_mono oc out v
      obtain ⟨e2, he2⟩ := ih (stepType oc out v)
      exact ⟨e1 ++ e2, by rw [List.foldl_cons, he2, he1, List.append_assoc]⟩

theorem foldl_commits_db (oc : Oracles) (L : List FileType) :
    ∀ out : RunOut, (L.foldl (stepType oc) out).commits = out.commits →
      (L.foldl (stepType oc) out).st.dbLedger = out.st.dbLedger ∧
      (L.foldl (stepType oc) out).st.dbRows = out.st.dbRows := by
  induction L with
  | nil => intro out _; exact ⟨rfl, rfl⟩
  | cons v rest ih =>
      intro out hcom
      rw [List.foldl_cons] at hcom ⊢
      obtain ⟨e1, he1⟩ := stepType_commits_mono oc out v
      obtain ⟨e2, he2⟩ := foldl_commits_mono oc rest (stepType oc out v)
      rw [he2, he1, List.append_assoc] at hcom
      have hnil : e1 ++ e2 = [] := by
        have := congrArg List.length hcom
        simp at this
        rcases this with ⟨h1, h2⟩
        rw [h1, h2]
        rfl
      have he1nil : e1 = [] := by
        cases e1 with
        | nil => rfl
        | cons a as => cases hnil
      have he2nil : e2 = [] := by
        rw [he1nil] at hnil
        simpa using hnil
      have hstep : (stepType oc out v).commits = out.commits := by
        rw [he1, he1nil, List.append_nil]
      obtain ⟨hd1, hd2⟩ := stepType_commits_db oc out v hstep
      have hres : (rest.foldl (stepType oc) (stepType oc out v)).commits =
          (stepType oc out v).commits := by
        rw [he2, he2nil, List.append_nil]
      obtain ⟨hr1, hr2⟩ := ih (stepType oc out v) hres
      exact ⟨hr1.trans hd1, hr2.trans hd2⟩

theorem foldl_commits_entries (oc : Oracles) (L : List FileType) :
    ∀ out : RunOut, ∀ p, p ∈ (L.foldl (stepType oc) out).commits →
      p ∈ out.commits ∨ p.2 ≠ ProcessingStatus.processed := by
  induction L with
  | nil => intro out p hp; exact Or.inl hp
  | cons v rest ih =>
      intro out p hp
      rw [List.foldl_cons] at hp
      rcases ih (stepType oc out v) p hp with h | h
      · exact stepType_commits_entries oc out v p h
      · exact Or.inr h

/-- Claim C9: add_data_to_db itself never commits a ledger-status mutation —
the only commits it performs are the entity-row commits inside
_add_data_to_table, so when no table commit happened the committed store is
exactly as it was — and at the very moment a file's entity rows are
committed, that file's persisted status is never processed: the processed
mark reaches the store only through a strictly later commit (the next
type's write commit or the caller's final session commit), so there is an
execution point where the rows are persisted and the processed status is
not. -/
theorem c9_entity_commit_precedes_status_commit (oc : Oracles) (st : St)
    (files : FileType → Option Desc) :
    ((add_data_to_db oc st files).commits = [] →
       (add_data_to_db oc st files).st.dbLedger = st.dbLedger ∧
       (add_data_to_db oc st files).st.dbRows = st.dbRows) ∧
    (∀ t s, (t, s) ∈ (add_data_to_db oc st files).commits →
       s ≠ ProcessingStatus.processed) := by
  constructor
  · intro hcom
    exact foldl_commits_db oc order_files (RunOut.mk st files none [] []) hcom
  · intro t s hmem
    rcases foldl_commits_entries oc order_files (RunOut.mk st files none [] [])
        (t, s) hmem with h | h
    · exact absurd h (List.not_mem_nil _)
    · exact h

theorem c9_entity_commit_precedes_status_commit_witness :
    (add_data_to_db ocFailAll stEmpty c2Files).st.dbLedger = stEmpty.dbLedger ∧
    (add_data_to_db ocFailAll stEmpty c2Files).st.dbRows = stEmpty.dbRows :=
  (c9_entity_commit_precedes_status_commit ocFailAll stEmpty c2Files).1 (by decide)

/- ------------------------------------------------------------------ -/
/- Claim C5.                                                          -/
/- ------------------------------------------------------------------ -/

/-- Claim C5 counterexample: the vehicles write raises while converting the
second of two rows and the file ends marked failed — yet the row added
before the raise is persisted by the final session commit of the very same
run, so rows of the failing file do reach the store, contradicting the
claim that none of that file's rows become persisted by this or any later
commit in the run. -/
theorem c5_counterexample :
    (pipelineOnce ocC5 dbEmpty c5Files).1.rows = [(FileType.vehicules, 10)] ∧
    (pipelineOnce ocC5 dbEmpty c5Files).1.ledger.map
        (fun r => r.processing_status) = [ProcessingStatus.failed] := by
  refine ⟨by decide, by decide⟩

/-- Claim C5 (amended): on success _add_data_to_table adds every row of the
file and commits them as one unit of work; a conversion error at row `k`
aborts that file's own commit — the failing call performs no commit, leaves
the committed store untouched and surfaces the exception message to its
caller (add_data_to_db catches it and records the failure without
re-raising) — but the `k` rows already added remain pending in the session,
and the next `session.commit()` in the run persists them. -/
theorem c5_unit_of_work_amended :
    (∀ st tbl rows, add_data_to_table st tbl rows WriteOutcome.ok =
        (commit { st with liveRows := st.liveRows ++ rows.map (fun x => (tbl, x)) },
         none)) ∧
    (∀ st tbl rows k m,
        add_data_to_table st tbl rows (WriteOutcome.failAt k m) =
          ({ st with liveRows :=
               st.liveRows ++ (rows.take k).map (fun x => (tbl, x)) },
           some m)) ∧
    (∀ st tbl rows k m,
        (add_data_to_table st tbl rows (WriteOutcome.failAt k m)).1.dbRows =
            st.dbRows ∧
        (add_data_to_table st tbl rows (WriteOutcome.failAt k m)).1.dbLedger =
            st.dbLedger) ∧
    (∀ out t d tbl rows k m,
        (stepWriteFail out t d tbl rows k m).err = out.err) ∧
    (∀ st tbl rows k m,
        (commit (add_data_to_table st tbl rows (WriteOutcome.failAt k m)).1).dbRows =
          st.liveRows ++ (rows.take k).map (fun x => (tbl, x))) :=
  ⟨fun _ _ _ => rfl, fun _ _ _ _ _ => rfl, fun _ _ _ _ _ => ⟨rfl, rfl⟩,
   fun _ _ _ _ _ _ _ => rfl, fun _ _ _ _ _ => rfl⟩

/- ------------------------------------------------------------------ -/
/- Claim C1.                                                          -/
/- ------------------------------------------------------------------ -/

/-- Claim C1: idempotence under re-run. For freshly discovered files (one
object per type, status pending) whose loads and writes all succeed,
executing reconcile (update_raw_accidents_csv_files_table) followed by run
(add_data_to_db) and the final session commit a second time, on input files
with the identical content hashes, leaves the store exactly as the first
execution left it: no duplicate ledger rows are inserted and no rows are
added to the target entity tables. -/
theorem c1_rerun_idempotent (oc : Oracles) (db : Db)
    (files : List (FileType × FileRec))
    (hnd : (files.map Prod.fst).Nodup)
    (hpend : ∀ p ∈ files, p.2.processing_status = ProcessingStatus.pending)
    (hdf : ∀ p, ∃ rs, oc.getDf p = Except.ok rs)
    (hwr : ∀ tb rows, oc.write tb rows = WriteOutcome.ok) :
    (pipelineOnce oc (pipelineOnce oc db files).1 files).1 =
      (pipelineOnce oc db files).1 :=
  pipelineOnce_noop oc _ files
    (pipelineOnce_marks_processed oc db files hnd hpend hdf hwr)

theorem c1_rerun_idempotent_witness :
    (pipelineOnce ocOk (pipelineOnce ocOk dbEmpty c5Files).1 c5Files).1 =
      (pipelineOnce ocOk dbEmpty c5Files).1 :=
  c1_rerun_idempotent ocOk dbEmpty c5Files (by decide) (by decide)
    (fun p => ⟨[0, 1], rfl⟩) (fun tb rows => rfl)

/- ------------------------------------------------------------------ -/
/- Claim C7.                                                          -/
/- ------------------------------------------------------------------ -/

theorem pipelineOnce_fst_of_err_some (oc : Oracles) (db : Db)
    (files : List (FileType × FileRec)) (e : ErrKind)
    (h : (add_data_to_db oc (commit (reconLoop (sessionStart db) files).1)
        (filesFun (reconLoop (sessionStart db) files).2)).err = some e) :
    (pipelineOnce oc db files).1 =
      dbOf (add_data_to_db oc
        (commit (reconLoop (sessionStart db) files).1)
        (filesFun (reconLoop (sessionStart db) files).2)).st := by
  unfold pipelineOnce update_raw_accidents_csv_files_table
  dsimp only
  rw [h]
  rfl

theorem reconOut_WF (db : Db) (files : List (FileType × FileRec))
    (hpend : ∀ p ∈ files, p.2.processing_status = ProcessingStatus.pending)
    (hnd : (files.map Prod.fst).Nodup) :
    WF (commit (reconLoop (sessionStart db) files).1)
      (filesFun (reconLoop (sessionStart db) files).2) := by
  obtain ⟨_, _, _, _, hdesc, hpw, _⟩ :=
    reconLoop_spec files (sessionStart db) hpend hnd
  constructor
  · intro u d i hu hi
    exact ((hdesc _ (lookupD_mem _ u d hu)).2 i hi).2
  · intro u v d e i huv hu hv hi hj
    have hne : (u, d) ≠ (v, e) := by
      intro hcon
      injection hcon with h1 _
      exact huv h1
    have hsymm : Symmetric (fun p q : FileType × Desc => ∀ a b,
        storedIdx p.2 = some a → storedIdx q.2 = some b → a ≠ b) :=
      fun p q hpq a b ha hb => (hpq b a hb ha).symm
    exact (hpw.forall hsymm (lookupD_mem _ u d hu)
      (lookupD_mem _ v e hv) hne) i i hi hj rfl

theorem stepType_ledgerRel (oc : Oracles) (out : RunOut) (t : FileType)
    (base : Nat) (l0 : List FileRec)
    (hnt : ∀ u d r, out.files u = some d → d = Desc.detached r →
        r.processing_status = ProcessingStatus.processed)
    (hidx : ∀ u d i, out.files u = some d → storedIdx d = some i →
        base ≤ i ∧ i < l0.length)
    (hlive : LedgerRel base l0 out.st.liveLedger)
    (hdb : LedgerRel base l0 out.st.dbLedger) :
    (LedgerRel base l0 (stepType oc out t).st.liveLedger ∧
     LedgerRel base l0 (stepType oc out t).st.dbLedger ∧
     (∀ u d r, (stepType oc out t).files u = some d → d = Desc.detached r →
        r.processing_status = ProcessingStatus.processed) ∧
     (∀ u d i, (stepType oc out t).files u = some d → storedIdx d = some i →
        base ≤ i ∧ i < l0.length)) := by
  refine stepType_elim oc out t (fun o =>
      LedgerRel base l0 o.st.liveLedger ∧
      LedgerRel base l0 o.st.dbLedger ∧
      (∀ u d r, o.files u = some d → d = Desc.detached r →
        r.processing_status = ProcessingStatus.processed) ∧
      (∀ u d i, o.files u = some d → storedIdx d = some i →
        base ≤ i ∧ i < l0.length))
    ⟨hlive, hdb, hnt, hidx⟩ ?_ ?_ ?_
  · intro d m _ _ _ _
    exact ⟨hlive, hdb, hnt, hidx⟩
  · intro d rows _ hf hs _ _
    cases d with
    | detached r => exact absurd (hnt t _ r hf rfl) hs
    | stored i =>
        obtain ⟨hbi, hli⟩ := hidx t _ i hf rfl
        have hlen : out.st.liveLedger.length = l0.length := hlive.1
        rw [stepWriteOk_stored]
        refine ⟨⟨?_, ?_, ?_⟩, hlive, ?_, ?_⟩
        · dsimp only
          rw [List.length_set]
          exact hlive.1
        · intro j
          dsimp only
          by_cases hji : j = i
          · subst hji
            rw [getD_set_self _ _ _ (by omega)]
            exact hlive.2.1 j
          · rw [getD_set_ne _ _ _ _ (fun h => hji h.symm)]
            exact hlive.2.1 j
        · intro j hj
          dsimp only
          rw [getD_set_ne _ _ _ _ (by omega)]
          exact hlive.2.2 j hj
        · intro u d2 r2 hu hr2
          dsimp only at hu
          unfold replaceDesc at hu
          by_cases hut : u = t
          · rw [if_pos hut] at hu
            injection hu with hu2
            rw [hr2] at hu2
            cases hu2
          · rw [if_neg hut] at hu
            exact hnt u d2 r2 hu hr2
        · intro u d2 i2 hu hi2
          dsimp only at hu
          unfold replaceDesc at hu
          by_cases hut : u = t
          · rw [if_pos hut] at hu
            injection hu with hu2
            rw [← hu2] at hi2
            simp only [storedIdx] at hi2
            injection hi2 with hi3
            omega
          · rw [if_neg hut] at hu
            exact hidx u d2 i2 hu hi2
  · intro d rows k m _ hf hs _ _
    cases d with
    | detached r => exact absurd (hnt t _ r hf rfl) hs
    | stored i =>
        obtain ⟨hbi, hli⟩ := hidx t _ i hf rfl
        have hlen : out.st.liveLedger.length = l0.length := hlive.1
        rw [stepWriteFail_stored]
        refine ⟨⟨?_, ?_, ?_⟩, hdb, ?_, ?_⟩
        · dsimp only
          rw [List.length_set]
          exact hlive.1
        · intro j
          dsimp only
          by_cases hji : j = i
          · subst hji
            rw [getD_set_self _ _ _ (by omega)]
            exact hlive.2.1 j
          · rw [getD_set_ne _ _ _ _ (fun h => hji h.symm)]
            exact hlive.2.1 j
        · intro j hj
          dsimp only
          rw [getD_set_ne _ _ _ _ (by omega)]
          exact hlive.2.2 j hj
        · intro u d2 r2 hu hr2
          dsimp only at hu
          unfold replaceDesc at hu
          by_cases hut : u = t
          · rw [if_pos hut] at hu
            injection hu with hu2
            rw [hr2] at hu2
            cases hu2
          · rw [if_neg hut] at hu
            exact hnt u d2 r2 hu hr2
        · intro u d2 i2 hu hi2
          dsimp only at hu
          unfold replaceDesc at hu
          by_cases hut : u = t
          · rw [if_pos hut] at hu
            injection hu with hu2
            rw [← hu2] at hi2
            simp only [storedIdx] at hi2
            injection hi2 with hi3
            omega
          · rw [if_neg hut] at hu
            exact hidx u d2 i2 hu hi2

theorem foldl_ledgerRel (oc : Oracles) (L : List FileType) (base : Nat)
    (l0 : List FileRec) :
    ∀ out : RunOut,
      (∀ u d r, out.files u = some d → d = Desc.detached r →
          r.processing_status = ProcessingStatus.processed) →
      (∀ u d i, out.files u = some d → storedIdx d = some i →
          base ≤ i ∧ i < l0.length) →
      LedgerRel base l0 out.st.liveLedger →
      LedgerRel base l0 out.st.dbLedger →
      (LedgerRel base l0 (L.foldl (stepType oc) out).st.liveLedger ∧
       LedgerRel base l0 (L.foldl (stepType oc) out).st.dbLedger) := by
  induction L with
  | nil => intro out _ _ h1 h2; exact ⟨h1, h2⟩
  | cons v rest ih =>
      intro out hnt hidx h1 h2
      obtain ⟨g1, g2, g3, g4⟩ := stepType_ledgerRel oc out v base l0 hnt hidx h1 h2
      rw [List.foldl_cons]
      exact ih (stepType oc out v) g3 g4 g1 g2

theorem nodup_md5_distinct (ins : List FileRec)
    (h : (ins.map (fun r => r.md5)).Nodup)
    (a b : Nat) (ha : a < ins.length) (hb : b < ins.length) (hab : a ≠ b) :
    (ins.getD a dummyRec).md5 ≠ (ins.getD b dummyRec).md5 := by
  intro heq
  have ha2 : a < (ins.map (fun r => r.md5)).length := by simpa using ha
  have hb2 : b < (ins.map (fun r => r.md5)).length := by simpa using hb
  rw [List.getD_eq_getElem _ _ ha, List.getD_eq_getElem _ _ hb] at heq
  have hmap : (ins.map (fun r => r.md5))[a] = (ins.map (fun r => r.md5))[b] := by
    rw [List.getElem_map, List.getElem_map]
    exact heq
  exact hab ((List.Nodup.getElem_inj_iff h).mp hmap)

theorem amo_of_rel (db : Db) (ins : List FileRec) (l : List FileRec)
    (hrel : LedgerRel db.ledger.length (db.ledger ++ ins) l)
    (hamo : AtMostOneProcessed db.ledger)
    (hmd : (ins.map (fun r => r.md5)).Nodup)
    (hwit : ∀ r ∈ ins, ¬ ∃ r2 ∈ db.ledger, r2.md5 = r.md5 ∧
        r2.processing_status = ProcessingStatus.processed) :
    AtMostOneProcessed l := by
  obtain ⟨hlen, hmd5, hpre⟩ := hrel
  have hlen2 : l.length = db.ledger.length + ins.length := by
    rw [hlen, List.length_append]
  have hflo : ∀ k, k < db.ledger.length →
      l.getD k dummyRec = db.ledger.getD k dummyRec := by
    intro k hk
    rw [hpre k hk, List.getD_append _ _ _ _ hk]
  have hfhi : ∀ k, db.ledger.length ≤ k → k < l.length →
      (l.getD k dummyRec).md5 =
        (ins.getD (k - db.ledger.length) dummyRec).md5 := by
    intro k hk1 hk2
    rw [hmd5 k, List.getD_append_right _ _ _ _ hk1]
  have hmemins : ∀ k, db.ledger.length ≤ k → k < l.length →
      ins.getD (k - db.ledger.length) dummyRec ∈ ins := by
    intro k hk1 hk2
    have : k - db.ledger.length < ins.length := by omega
    rw [List.getD_eq_getElem _ _ this]
    exact List.getElem_mem _
  intro i j hi hj hij hpi hpj hmeq
  by_cases hib : i < db.ledger.length <;> by_cases hjb : j < db.ledger.length
  · -- both in the old region
    refine hamo i j hib hjb hij ?_ ?_ ?_
    · rw [← hflo i hib]; exact hpi
    · rw [← hflo j hjb]; exact hpj
    · rw [← hflo i hib, ← hflo j hjb]; exact hmeq
  · -- i old, j inserted
    refine hwit (ins.getD (j - db.ledger.length) dummyRec)
      (hmemins j (by omega) hj) ⟨db.ledger.getD i dummyRec, ?_, ?_, ?_⟩
    · have : i < db.ledger.length := hib
      rw [List.getD_eq_getElem _ _ this]
      exact List.getElem_mem _
    · rw [← hflo i hib, hmeq, hfhi j (by omega) hj]
    · rw [← hflo i hib]; exact hpi
  · -- j old, i inserted
    refine hwit (ins.getD (i - db.ledger.length) dummyRec)
      (hmemins i (by omega) hi) ⟨db.ledger.getD j dummyRec, ?_, ?_, ?_⟩
    · have : j < db.ledger.length := hjb
      rw [List.getD_eq_getElem _ _ this]
      exact List.getElem_mem _
    · rw [← hflo j hjb, ← hmeq, hfhi i (by omega) hi]
    · rw [← hflo j hjb]; exact hpj
  · -- both inserted
    have hane : i - db.ledger.length ≠ j - db.ledger.length := by omega
    refine nodup_md5_distinct ins hmd _ _ (by omega) (by omega) hane ?_
    rw [← hfhi i (by omega) hi, ← hfhi j (by omega) hj]
    exact hmeq

theorem pipelineOnce_amo (oc : Oracles) (db : Db)
    (files : List (FileType × FileRec))
    (hnd : (files.map Prod.fst).Nodup)
    (hmd : (files.map (fun p => p.2.md5)).Nodup)
    (hpend : ∀ p ∈ files, p.2.processing_status = ProcessingStatus.pending)
    (hamo : AtMostOneProcessed db.ledger) :
    AtMostOneProcessed (pipelineOnce oc db files).1.ledger := by
  obtain ⟨⟨ins, hins, hinsp, hinss, hinsw⟩, hdbL, hlivR, hdbR, hdesc, hpw, hent⟩ :=
    reconLoop_spec files (sessionStart db) hpend hnd
  set LP := reconLoop (sessionStart db) files with hLP
  set OUT0 := RunOut.mk (commit LP.1) (filesFun LP.2) none [] [] with hOUT0
  set RES := List.foldl (stepType oc) OUT0 order_files with hRES
  have he : OUT0.st.liveLedger = db.ledger ++ ins := hins
  have hnt : ∀ u d r, OUT0.files u = some d → d = Desc.detached r →
      r.processing_status = ProcessingStatus.processed := by
    intro u d r hu hr
    exact (hdesc _ (lookupD_mem _ u d hu)).1 r hr
  have hidx : ∀ u d i, OUT0.files u = some d → storedIdx d = some i →
      db.ledger.length ≤ i ∧ i < (db.ledger ++ ins).length := by
    intro u d i hu hi
    obtain ⟨h1, h2⟩ := (hdesc _ (lookupD_mem _ u d hu)).2 i hi
    refine ⟨h1, ?_⟩
    rw [← he]
    exact h2
  have hrel0 : LedgerRel db.ledger.length (db.ledger ++ ins) OUT0.st.liveLedger :=
    ⟨by rw [he], fun j => by rw [he], fun j _ => by rw [he]⟩
  have hreldb : LedgerRel db.ledger.length (db.ledger ++ ins) OUT0.st.dbLedger :=
    hrel0
  obtain ⟨hrelL, hrelD⟩ := foldl_ledgerRel oc order_files db.ledger.length
    (db.ledger ++ ins) OUT0 hnt hidx hrel0 hreldb
  have hinsmd : (ins.map (fun r => r.md5)).Nodup := by
    have hsub := hinss.map (fun r => r.md5)
    rw [List.map_map] at hsub
    exact List.Nodup.sublist hsub hmd
  have hwit : ∀ r ∈ ins, ¬ ∃ r2 ∈ db.ledger, r2.md5 = r.md5 ∧
      r2.processing_status = ProcessingStatus.processed := hinsw
  cases herr2 : RES.err with
  | none =>
      have hfst : (pipelineOnce oc db files).1 = dbOf (commit RES.st) :=
        pipelineOnce_fst_of_err_none oc db files herr2
      rw [hfst]
      exact amo_of_rel db ins _ hrelL hamo hinsmd hwit
  | some e =>
      have hfst : (pipelineOnce oc db files).1 = dbOf RES.st :=
        pipelineOnce_fst_of_err_some oc db files e herr2
      rw [hfst]
      exact amo_of_rel db ins _ hrelD hamo hinsmd hwit

theorem pipelineSeq_amo (runs : List (Oracles × List (FileType × FileRec))) :
    ∀ db : Db,
      (∀ q ∈ runs, ((q.2.map Prod.fst).Nodup ∧
         (q.2.map (fun p => p.2.md5)).Nodup ∧
         ∀ p ∈ q.2, p.2.processing_status = ProcessingStatus.pending)) →
      AtMostOneProcessed db.ledger →
      AtMostOneProcessed (pipelineSeq db runs).ledger := by
  induction runs with
  | nil => intro db _ h; exact h
  | cons q rest ih =>
      intro db hq hamo
      obtain ⟨oc, fs⟩ := q
      obtain ⟨h1, h2, h3⟩ := hq _ (List.mem_cons_self _ _)
      exact ih _ (fun r hr => hq r (List.mem_cons_of_mem _ hr))
        (pipelineOnce_amo oc db fs h1 h2 h3 hamo)

theorem pipelineOnce_retries_failed (oc : Oracles) (db : Db)
    (files : List (FileType × FileRec)) (t : FileType) (f : FileRec)
    (hnd : (files.map Prod.fst).Nodup)
    (hpend : ∀ p ∈ files, p.2.processing_status = ProcessingStatus.pending)
    (hdf : ∀ p, ∃ rs, oc.getDf p = Except.ok rs)
    (hmem : (t, f) ∈ files)
    (hnoproc : ¬ ∃ r ∈ db.ledger, r.md5 = f.md5 ∧
        r.processing_status = ProcessingStatus.processed) :
    t ∈ (pipelineOnce oc db files).2.attempts := by
  obtain ⟨_, hdbL, hlivR, hdbR, hdesc, hpw, hent⟩ :=
    reconLoop_spec files (sessionStart db) hpend hnd
  rcases hent t f hmem with ⟨_, r, hr, hmd, hpr⟩ | ⟨i, hlk, hge, hlt, hgd⟩
  · exact absurd ⟨r, hr, hmd, hpr⟩ hnoproc
  · set LP := reconLoop (sessionStart db) files with hLP
    set OUT0 := RunOut.mk (commit LP.1) (filesFun LP.2) none [] [] with hOUT0
    have hwf : WF OUT0.st OUT0.files := reconOut_WF db files hpend hnd
    have hstat : descStatus OUT0.st (Desc.stored i) ≠
        ProcessingStatus.processed := by
      show (LP.1.liveLedger.getD i dummyRec).processing_status ≠ _
      rw [hgd, hpend (t, f) hmem]
      intro hcon
      cases hcon
    have hatt := (foldl_attempt_mem oc hdf order_files OUT0 t (Desc.stored i)
      (by decide) hwf rfl (by cases t <;> decide) hlk hstat).1
    rw [pipelineOnce_snd]
    exact hatt

/-- Claim C7 counterexample: two discovered files of different logical types
carrying the same content hash X are both registered by reconcile (neither
is processed yet) and both loaded by run, so after one execution the ledger
holds two records with hash X marked processed — refuting the invariant
that at most one ledger record per content hash is ever marked processed. -/
theorem c7_counterexample :
    ((pipelineOnce ocOk dbEmpty c7Files).1.ledger.filter
        (fun r => r.md5 == "X" &&
          r.processing_status == ProcessingStatus.processed)).length = 2 := by
  decide

/-- Claim C7 (amended): provided the files discovered in each run carry
pairwise distinct content hashes (one fresh pending object per type), then
across any sequence of non-overlapping reconcile+run executions, at most
one ledger record per content hash is ever marked processed; and a failed
record is not terminal: in a later run, a file whose hash no ledger record
has processed is re-attempted (its type is attempted by add_data_to_db)
rather than skipped. -/
theorem c7_at_most_one_processed_and_retry :
    (∀ (runs : List (Oracles × List (FileType × FileRec))) (db : Db),
       (∀ q ∈ runs, ((q.2.map Prod.fst).Nodup ∧
          (q.2.map (fun p => p.2.md5)).Nodup ∧
          ∀ p ∈ q.2, p.2.processing_status = ProcessingStatus.pending)) →
       AtMostOneProcessed db.ledger →
       AtMostOneProcessed (pipelineSeq db runs).ledger) ∧
    (∀ (oc : Oracles) (db : Db) (files : List (FileType × FileRec))
       (t : FileType) (f : FileRec),
       (files.map Prod.fst).Nodup →
       (∀ p ∈ files, p.2.processing_status = ProcessingStatus.pending) →
       (∀ p, ∃ rs, oc.getDf p = Except.ok rs) →
       (t, f) ∈ files →
       ¬ (∃ r ∈ db.ledger, r.md5 = f.md5 ∧
           r.processing_status = ProcessingStatus.processed) →
       t ∈ (pipelineOnce oc db files).2.attempts) :=
  ⟨fun runs db h hamo => pipelineSeq_amo runs db h hamo,
   fun oc db files t f hnd hpend hdf hmem hnoproc =>
     pipelineOnce_retries_failed oc db files t f hnd hpend hdf hmem hnoproc⟩

theorem c7_at_most_one_processed_and_retry_witness :
    AtMostOneProcessed (pipelineSeq dbEmpty [(ocOk, c5Files)]).ledger ∧
    FileType.vehicules ∈ (pipelineOnce ocOk dbEmpty c5Files).2.attempts :=
  ⟨c7_at_most_one_processed_and_retry.1 [(ocOk, c5Files)] dbEmpty
     (by
       intro q hq
       obtain rfl := List.mem_singleton.mp hq
       exact ⟨by decide, by decide, by decide⟩)
     (by
       intro i j hi hj hij hpi hpj
       exact absurd hi (Nat.not_lt_zero i)),
   c7_at_most_one_processed_and_retry.2 ocOk dbEmpty c5Files
     FileType.vehicules (recOf FileType.vehicules "hv" "pv")
     (by decide) (by decide) (fun p => ⟨[0, 1], rfl⟩) (by decide)
     (by
       rintro ⟨r, hr, _⟩
       exact absurd hr (List.not_mem_nil r))⟩

end DbTasks
